import Mathlib

/-!
# Auto-schedule IR analysis (`paddle/cinn/auto_schedule/analysis/analyze_ir.cc`)

A shallow embedding of the analysis routines of `analyze_ir.cc` and the
properties they satisfy.

The IR node classes (`ir::Expr`, `ir::_Var_`, `ir::Load`, ...) are declared in
the headers under `paddle/cinn/ir/`; the fragment of them that the routines
touch is declared below.  Results of C++ code that can throw or run into
undefined behaviour are values of `Outcome`.
-/

namespace common

/-- Error categories of `common::errors` raised by the kernels and analyses. -/
inductive ErrorCode where
  | INVALID_ARGUMENT
  | UNIMPLEMENTED
deriving DecidableEq, Repr

/-- The payload of an exception raised by `PADDLE_ENFORCE_*` / `PADDLE_THROW`:
the error category and the message given at the call site. -/
structure ErrorSummary where
  code : ErrorCode
  message : String
deriving DecidableEq, Repr

namespace errors

/-- `common::errors::InvalidArgument(msg)`. -/
def InvalidArgument (msg : String) : ErrorSummary :=
  ⟨ErrorCode.INVALID_ARGUMENT, msg⟩

/-- `common::errors::Unimplemented(msg)`. -/
def Unimplemented (msg : String) : ErrorSummary :=
  ⟨ErrorCode.UNIMPLEMENTED, msg⟩

end errors

end common

/-- What a call of a C++ routine amounts to: it returns a value, it throws the
exception built from an `ErrorSummary`, or it runs into undefined behaviour
(a null pointer is dereferenced, a vector is indexed out of range). -/
inductive Outcome (α : Type) where
  | value (a : α)
  | thrown (e : common.ErrorSummary)
  | undefined
deriving DecidableEq, Repr

namespace Outcome

/-- Sequencing: the continuation runs only after a normal return. -/
def bind {α β : Type} (o : Outcome α) (f : α → Outcome β) : Outcome β :=
  match o with
  | value a => f a
  | thrown e => thrown e
  | undefined => undefined

end Outcome

namespace cinn

namespace ir

/-- The storage behind tensors (`ir::Buffer`).  Handles are compared by
identity, which `id` stands for. -/
structure Buffer where
  id : Nat
deriving DecidableEq, Repr

/-- A handle on an `ir::_Var_` node: the fields the analysis reads. -/
structure Var where
  name : String
  is_reduce_axis : Bool
deriving DecidableEq, Repr

/-- Fields of `ir::_Tensor_` over expressions of type `E`: the name, the
backing buffer, and the shape expressions of the tensor node.  The operation
that defines the tensor lies behind the node and is not part of the expression
tree. -/
structure TensorOf (E : Type) where
  name : String
  buffer : Buffer
  shape : List E

/-- Fields of `ir::ScheduleBlock` over expressions of type `E`. -/
structure ScheduleBlockOf (E : Type) where
  iter_vars : List Var
  read_buffers : List E
  write_buffers : List E
  name : String
  body : E

/-- Fields of `ir::ScheduleBlockRealize` over expressions of type `E`. -/
structure ScheduleBlockRealizeOf (E : Type) where
  iter_values : List E
  schedule_block : E

/-- IR expressions (`ir::Expr`): the node classes the analysis distinguishes,
with arithmetic, loops and statement blocks as the compound nodes around
them.  The `tensor` operand of a `Load` or `Store` is a tensor, which is what
`as_tensor_ref()` takes it to be; the entries of the region lists of a block
and the `schedule_block` of a realize are arbitrary expressions, as in the
C++ declarations. -/
inductive Expr where
  | IntImm (value : Int)
  | _Var_ (v : Var)
  | Add (a b : Expr)
  | Sub (a b : Expr)
  | Mul (a b : Expr)
  | Div (a b : Expr)
  | Mod (a b : Expr)
  | _Tensor_ (t : TensorOf Expr)
  | Load (tensor : TensorOf Expr) (indices : List Expr)
  | Store (tensor : TensorOf Expr) (value : Expr) (indices : List Expr)
  | _BufferRange_ (buffer : Buffer) (ranges : List Var)
  | For (loop_var : Var) (min extent body : Expr)
  | Block (stmts : List Expr)
  | ScheduleBlock (node : ScheduleBlockOf Expr)
  | ScheduleBlockRealize (node : ScheduleBlockRealizeOf Expr)

/-- An `ir::Tensor`. -/
abbrev Tensor := TensorOf Expr

/-- An `ir::ScheduleBlock` node. -/
abbrev ScheduleBlock := ScheduleBlockOf Expr

/-- An `ir::ScheduleBlockRealize` node. -/
abbrev ScheduleBlockRealize := ScheduleBlockRealizeOf Expr

namespace Expr

/-- The cast `e.As<ir::_Var_>()` (also `e.as_var()`): the node when `e` is a
variable reference, `none` for the null pointer. -/
def as_var : Expr → Option Var
  | _Var_ v => some v
  | _ => none

/-- The cast `e.As<ir::ScheduleBlockRealize>()`. -/
def as_schedule_block_realize : Expr → Option ir.ScheduleBlockRealize
  | ScheduleBlockRealize r => some r
  | _ => none

/-- The cast `e.As<ir::ScheduleBlock>()`. -/
def as_schedule_block : Expr → Option ir.ScheduleBlock
  | ScheduleBlock b => some b
  | _ => none

/-- The cast `e.As<ir::_BufferRange_>()`, giving the `buffer` and `ranges`
fields. -/
def as_buffer_range : Expr → Option (Buffer × List Var)
  | _BufferRange_ buffer ranges => some (buffer, ranges)
  | _ => none

end Expr

namespace Expr

mutual
/-- All nodes of the expression tree rooted at an expression, the root first,
the shape expressions of tensor nodes included. -/
def subexprs : Expr → List Expr
  | IntImm value => [IntImm value]
  | _Var_ v => [_Var_ v]
  | Add a b => Add a b :: (subexprs a ++ subexprs b)
  | Sub a b => Sub a b :: (subexprs a ++ subexprs b)
  | Mul a b => Mul a b :: (subexprs a ++ subexprs b)
  | Div a b => Div a b :: (subexprs a ++ subexprs b)
  | Mod a b => Mod a b :: (subexprs a ++ subexprs b)
  | _Tensor_ t => _Tensor_ t :: subexprsTensor t
  | Load tensor indices =>
    Load tensor indices :: _Tensor_ tensor :: (subexprsTensor tensor ++ subexprsList indices)
  | Store tensor value indices =>
    Store tensor value indices ::
      (subexprs value ++ _Tensor_ tensor :: (subexprsTensor tensor ++ subexprsList indices))
  | _BufferRange_ buffer ranges => [_BufferRange_ buffer ranges]
  | For loop_var min extent body =>
    For loop_var min extent body :: (subexprs min ++ subexprs extent ++ subexprs body)
  | Block stmts => Block stmts :: subexprsList stmts
  | ScheduleBlock node => ScheduleBlock node :: subexprsBlock node
  | ScheduleBlockRealize node => ScheduleBlockRealize node :: subexprsRealize node
/-- Nodes below a tensor node. -/
def subexprsTensor : TensorOf Expr → List Expr
  | ⟨_, _, shape⟩ => subexprsList shape
/-- Nodes below a schedule block node. -/
def subexprsBlock : ScheduleBlockOf Expr → List Expr
  | ⟨_, read_buffers, write_buffers, _, body⟩ =>
    subexprsList read_buffers ++ subexprsList write_buffers ++ subexprs body
/-- Nodes below a schedule block realize node. -/
def subexprsRealize : ScheduleBlockRealizeOf Expr → List Expr
  | ⟨iter_values, schedule_block⟩ => subexprsList iter_values ++ subexprs schedule_block
/-- Nodes of a sequence of expression trees. -/
def subexprsList : List Expr → List Expr
  | [] => []
  | e :: rest => subexprs e ++ subexprsList rest
end

end Expr

namespace ir_utils

/-- Modelled from the spec: the body of `ir::ir_utils::IRCopy` (declared in
`ir_copy.h`) is missing; the spec has each retained variable produced as an
independent deep copy.  Expressions are values here, so the copy is the
expression itself. -/
def IRCopy (e : Expr) : Expr := e

mutual
/-- Modelled from the spec: the IR Walker behind
`ir::ir_utils::CollectIRNodesWithoutTensor` (declared in
`ir_nodes_collector.h`) is missing.  The spec has it produce the matching
nodes of the subtree of the root, the root included, and stop at the
opaque-tensor boundary: it does not go from a tensor reference into the
operation that defines the tensor, which is no part of the expression tree
here.  This is the sequence of nodes it hands to the predicate: the root,
then the nodes of its operands from left to right, a tensor node being
followed by the nodes of its shape. -/
def VisitWithoutTensor : Expr → List Expr
  | .IntImm value => [.IntImm value]
  | ._Var_ v => [._Var_ v]
  | .Add a b => .Add a b :: (VisitWithoutTensor a ++ VisitWithoutTensor b)
  | .Sub a b => .Sub a b :: (VisitWithoutTensor a ++ VisitWithoutTensor b)
  | .Mul a b => .Mul a b :: (VisitWithoutTensor a ++ VisitWithoutTensor b)
  | .Div a b => .Div a b :: (VisitWithoutTensor a ++ VisitWithoutTensor b)
  | .Mod a b => .Mod a b :: (VisitWithoutTensor a ++ VisitWithoutTensor b)
  | ._Tensor_ t => ._Tensor_ t :: VisitWithoutTensorShape t
  | .Load tensor indices =>
    .Load tensor indices :: ._Tensor_ tensor ::
      (VisitWithoutTensorShape tensor ++ VisitWithoutTensorList indices)
  | .Store tensor value indices =>
    .Store tensor value indices ::
      (VisitWithoutTensor value ++ ._Tensor_ tensor ::
        (VisitWithoutTensorShape tensor ++ VisitWithoutTensorList indices))
  | ._BufferRange_ buffer ranges => [._BufferRange_ buffer ranges]
  | .For loop_var min extent body =>
    .For loop_var min extent body ::
      (VisitWithoutTensor min ++ VisitWithoutTensor extent ++ VisitWithoutTensor body)
  | .Block stmts => .Block stmts :: VisitWithoutTensorList stmts
  | .ScheduleBlock node => .ScheduleBlock node :: VisitWithoutTensorBlock node
  | .ScheduleBlockRealize node => .ScheduleBlockRealize node :: VisitWithoutTensorRealize node
/-- Modelled from the spec: the walk below a tensor node, over its shape. -/
def VisitWithoutTensorShape : TensorOf Expr → List Expr
  | ⟨_, _, shape⟩ => VisitWithoutTensorList shape
/-- Modelled from the spec: the walk below a schedule block node. -/
def VisitWithoutTensorBlock : ScheduleBlockOf Expr → List Expr
  | ⟨_, read_buffers, write_buffers, _, body⟩ =>
    VisitWithoutTensorList read_buffers ++ VisitWithoutTensorList write_buffers ++
      VisitWithoutTensor body
/-- Modelled from the spec: the walk below a schedule block realize node. -/
def VisitWithoutTensorRealize : ScheduleBlockRealizeOf Expr → List Expr
  | ⟨iter_values, schedule_block⟩ =>
    VisitWithoutTensorList iter_values ++ VisitWithoutTensor schedule_block
/-- Modelled from the spec: the walk over a sequence of operands. -/
def VisitWithoutTensorList : List Expr → List Expr
  | [] => []
  | e :: rest => VisitWithoutTensor e ++ VisitWithoutTensorList rest
end

/-- The predicate of a walk is a C++ closure that may update captured state
of type `σ`: applied to the nodes in order, it yields the nodes it accepted
and the final state. -/
def CollectIRNodesWithoutTensor.run {σ : Type} (teller : Expr → σ → Bool × σ) :
    List Expr → σ → List Expr × σ
  | [], s => ([], s)
  | x :: rest, s =>
    let r := teller x s
    let out := CollectIRNodesWithoutTensor.run teller rest r.2
    (if r.1 then x :: out.1 else out.1, out.2)

/-- Modelled from the spec: the body of
`ir::ir_utils::CollectIRNodesWithoutTensor(expr, teller)` is missing.  The
predicate is applied to every node of the walk of `expr` and the accepted
nodes are returned, together with the state the closure leaves behind. -/
def CollectIRNodesWithoutTensor {σ : Type} (expr : Expr) (teller : Expr → σ → Bool × σ)
    (s : σ) : List Expr × σ :=
  CollectIRNodesWithoutTensor.run teller (VisitWithoutTensor expr) s

end ir_utils

/-- The node categories `ir::IrNodeTy` of the node classes of `Expr`. -/
inductive IrNodeTy where
  | IntImm
  | _Var_
  | Add
  | Sub
  | Mul
  | Div
  | Mod
  | _Tensor_
  | Load
  | Store
  | _BufferRange_
  | For
  | Block
  | ScheduleBlock
  | ScheduleBlockRealize
deriving DecidableEq, Repr

/-- The category `e.node_type()` of a node. -/
def Expr.node_type : Expr → IrNodeTy
  | .IntImm _ => IrNodeTy.IntImm
  | ._Var_ _ => IrNodeTy._Var_
  | .Add _ _ => IrNodeTy.Add
  | .Sub _ _ => IrNodeTy.Sub
  | .Mul _ _ => IrNodeTy.Mul
  | .Div _ _ => IrNodeTy.Div
  | .Mod _ _ => IrNodeTy.Mod
  | ._Tensor_ _ => IrNodeTy._Tensor_
  | .Load _ _ => IrNodeTy.Load
  | .Store _ _ _ => IrNodeTy.Store
  | ._BufferRange_ _ _ => IrNodeTy._BufferRange_
  | .For _ _ _ _ => IrNodeTy.For
  | .Block _ => IrNodeTy.Block
  | .ScheduleBlock _ => IrNodeTy.ScheduleBlock
  | .ScheduleBlockRealize _ => IrNodeTy.ScheduleBlockRealize

/-- The direction flag of a function argument (the enumeration nested in
`ir::Argument`). -/
inductive Direction where
  | kInput
  | kOutput
  | kUnknown
deriving DecidableEq, Repr

/-- An argument of a lowered function (`ir::Argument`): its name and its
direction flag. -/
structure Argument where
  name : String
  io : Direction
deriving DecidableEq, Repr

/-- The test `arg.is_output()`. -/
def Argument.is_output (arg : Argument) : Bool :=
  decide (Direction.kOutput = arg.io)

/-- The signature of a lowered function (`ir::LoweredFunc`): its name and its
arguments. -/
structure LoweredFunc where
  name : String
  args : List Argument
deriving DecidableEq, Repr

end ir

namespace auto_schedule

open ir

/-- The loop of `IndicesToVars`: `result` is the vector built so far.  The
copy of a variable node is a variable node, so the cast of `copy_e` gives the
node that is put at the end of `result`. -/
def IndicesToVars.loop : List Expr → List Var → List Var
  | [], result => result
  | e :: rest, result =>
    match e.as_var with
    | some _ =>
      let copy_e := ir_utils.IRCopy e
      match copy_e.as_var with
      | some var_ref => IndicesToVars.loop rest (result ++ [var_ref])
      | none => IndicesToVars.loop rest result
    | none => IndicesToVars.loop rest result

/-- `IndicesToVars` of `analyze_ir.cc`: the variables among the index
expressions. -/
def IndicesToVars (indices : List Expr) : List Var :=
  IndicesToVars.loop indices []

/-- The closure handed to the walker by `AnalyzeScheduleBlockReadWriteBuffer`:
a `Load` appends a buffer range to `read_buffers`, a `Store` to
`write_buffers`; no node is accepted. -/
def AnalyzeScheduleBlockReadWriteBuffer.teller (x : Expr) (sche_block : ScheduleBlock) :
    Bool × ScheduleBlock :=
  match x with
  | .Load t indices =>
    (false, { sche_block with
      read_buffers := sche_block.read_buffers ++ [Expr._BufferRange_ t.buffer (IndicesToVars indices)] })
  | .Store t _ indices =>
    (false, { sche_block with
      write_buffers := sche_block.write_buffers ++ [Expr._BufferRange_ t.buffer (IndicesToVars indices)] })
  | _ => (false, sche_block)

/-- `AnalyzeScheduleBlockReadWriteBuffer` of `analyze_ir.cc`; the block it
updates in place is returned. -/
def AnalyzeScheduleBlockReadWriteBuffer (sche_block : ScheduleBlock) : ScheduleBlock :=
  if !sche_block.read_buffers.isEmpty || !sche_block.write_buffers.isEmpty then
    sche_block
  else
    (ir_utils.CollectIRNodesWithoutTensor sche_block.body
      AnalyzeScheduleBlockReadWriteBuffer.teller sche_block).2

/-- The set `vars_index_read` of `NeedsMultiLevelTiling`: the names of the
variables of a read region, inserted one by one. -/
def NeedsMultiLevelTiling.vars_index_read : List Var → Finset String → Finset String
  | [], s => s
  | range :: rest, s => NeedsMultiLevelTiling.vars_index_read rest (insert range.name s)

/-- The largest value of the 32-bit C++ `int`. -/
def INT_MAX : Int := 2147483647

/-- The smallest value of the 32-bit C++ `int`. -/
def INT_MIN : Int := -2147483648

/-- The sum of two C++ `int`s (`++n` is `int_add n 1`, `a += b` is
`int_add a b`): a sum that an `int` cannot hold is a signed overflow, which is
undefined behaviour. -/
def int_add (a b : Int) : Outcome Int :=
  if INT_MIN ≤ a + b ∧ a + b ≤ INT_MAX then Outcome.value (a + b) else Outcome.undefined

/-- The counter `n_unused_block_vars` of `NeedsMultiLevelTiling`: the loop over
the block iteration variables, from the value `n` of the `int` counter. -/
def NeedsMultiLevelTiling.n_unused_block_vars (vars_index_read : Finset String) :
    List Var → Int → Outcome Int
  | [], n => Outcome.value n
  | block_iter_var :: rest, n =>
    if !block_iter_var.is_reduce_axis then
      let iter_var_in_read : Bool := decide (∃ var ∈ vars_index_read, var = block_iter_var.name)
      if !iter_var_in_read then
        (int_add n 1).bind
          (fun n => NeedsMultiLevelTiling.n_unused_block_vars vars_index_read rest n)
      else
        NeedsMultiLevelTiling.n_unused_block_vars vars_index_read rest n
    else
      NeedsMultiLevelTiling.n_unused_block_vars vars_index_read rest n

/-- The loop of `NeedsMultiLevelTiling` over the read regions, accumulating the
`int` counter `total_unused_iter_vars`.  A read entry that is not a
`_BufferRange_` makes the cast return null, which is then dereferenced. -/
def NeedsMultiLevelTiling.total_unused_iter_vars (write_buffer : Buffer) (iter_vars : List Var) :
    List Expr → Int → Outcome Int
  | [], total => Outcome.value total
  | read_buffer_expr :: rest, total =>
    match read_buffer_expr.as_buffer_range with
    | none => Outcome.undefined
    | some (buffer, ranges) =>
      if buffer = write_buffer then
        NeedsMultiLevelTiling.total_unused_iter_vars write_buffer iter_vars rest total
      else
        (NeedsMultiLevelTiling.n_unused_block_vars
            (NeedsMultiLevelTiling.vars_index_read ranges ∅) iter_vars 0).bind
          (fun n_unused_block_vars =>
            (int_add total n_unused_block_vars).bind
              (fun total =>
                NeedsMultiLevelTiling.total_unused_iter_vars write_buffer iter_vars rest total))

/-- `NeedsMultiLevelTiling` of `analyze_ir.cc`.  The casts to `ScheduleBlock`
and `_BufferRange_` are not checked before the pointers are used, and the
counters are `int`s that nothing keeps from overflowing. -/
def NeedsMultiLevelTiling (sche_block_realize : ScheduleBlockRealize) : Outcome Bool :=
  match sche_block_realize.schedule_block.as_schedule_block with
  | none => Outcome.undefined
  | some sche_block =>
    if sche_block.write_buffers.length ≠ 1 ∨ sche_block.read_buffers.isEmpty then
      Outcome.value false
    else
      match sche_block.write_buffers[0]? with
      | none => Outcome.undefined
      | some w =>
        match w.as_buffer_range with
        | none => Outcome.undefined
        | some (write_buffer, _) =>
          (NeedsMultiLevelTiling.total_unused_iter_vars write_buffer sche_block.iter_vars
              sche_block.read_buffers 0).bind
            (fun total_unused_iter_vars => Outcome.value (decide (total_unused_iter_vars ≥ 1)))

/-- The closure handed to the walker by `GetReduceLoopVarNames`: the name of
every variable node is inserted into `reduce_loop_var`; no node is accepted. -/
def GetReduceLoopVarNames.teller (x : Expr) (reduce_loop_var : Finset String) :
    Bool × Finset String :=
  match x.as_var with
  | some var_ref => (false, insert var_ref.name reduce_loop_var)
  | none => (false, reduce_loop_var)

/-- The loop of `GetReduceLoopVarNames` over the positions `i`, `i + 1`, ... of
`iter_vars`.  `iter_values[i]` is an unchecked vector access. -/
def GetReduceLoopVarNames.loop (iter_values : List Expr) :
    List Var → Nat → Finset String → Outcome (Finset String)
  | [], _, reduce_loop_var => Outcome.value reduce_loop_var
  | iter_var :: rest, i, reduce_loop_var =>
    if iter_var.is_reduce_axis then
      match iter_values[i]? with
      | none => Outcome.undefined
      | some iter_value =>
        GetReduceLoopVarNames.loop iter_values rest (i + 1)
          (ir_utils.CollectIRNodesWithoutTensor iter_value
            GetReduceLoopVarNames.teller reduce_loop_var).2
    else
      GetReduceLoopVarNames.loop iter_values rest (i + 1) reduce_loop_var

/-- `GetReduceLoopVarNames` of `analyze_ir.cc`. -/
def GetReduceLoopVarNames (block : Expr) : Outcome (Finset String) :=
  match block.as_schedule_block_realize with
  | none =>
    Outcome.thrown (common.errors.InvalidArgument "The block is not a ScheduleBlockRealize")
  | some block_realize =>
    match block_realize.schedule_block.as_schedule_block with
    | none => Outcome.thrown (common.errors.InvalidArgument "The block is not a ScheduleBlock")
    | some block_node =>
      GetReduceLoopVarNames.loop block_realize.iter_values block_node.iter_vars 0 ∅

/-- The read region recorded for a node: a `Load` gives the buffer of the
loaded tensor with the variables among its indices, any other node nothing. -/
def readRegionOf : Expr → Option Expr
  | .Load t indices => some (Expr._BufferRange_ t.buffer (IndicesToVars indices))
  | _ => none

/-- The write region recorded for a node: a `Store` gives the buffer of the
stored tensor with the variables among its indices, any other node nothing. -/
def writeRegionOf : Expr → Option Expr
  | .Store t _ indices => some (Expr._BufferRange_ t.buffer (IndicesToVars indices))
  | _ => none

/-- Whether a node is a `Load`. -/
def isLoad : Expr → Bool
  | .Load _ _ => true
  | _ => false

/-- Whether a node is a `Store`. -/
def isStore : Expr → Bool
  | .Store _ _ _ => true
  | _ => false

/-- The number of iteration variables of a block that are not reduction axes
and whose name is not in the set of names of a read region. -/
def unusedBlockVars (vars_index_read : Finset String) (iter_vars : List Var) : Nat :=
  iter_vars.countP (fun v => !v.is_reduce_axis && decide (v.name ∉ vars_index_read))

/-- The number of unused iteration variables that a read entry contributes: none
for a read on the written buffer `W` (and for an entry that is no
`_BufferRange_`), `unusedBlockVars` of its ranges otherwise. -/
def unusedOfRead (W : Buffer) (iter_vars : List Var) (read : Expr) : Nat :=
  match read.as_buffer_range with
  | some (buffer, ranges) =>
    if buffer = W then 0
    else unusedBlockVars (NeedsMultiLevelTiling.vars_index_read ranges ∅) iter_vars
  | none => 0

/-- The number of pairs of a read region off the written buffer `W` and an
iteration variable that the region does not use. -/
def unusedPairs (W : Buffer) (iter_vars : List Var) (reads : List Expr) : Nat :=
  (reads.map (unusedOfRead W iter_vars)).sum

/-- Whether a read entry is kept when the self-reads on `W` are deleted: a
`_BufferRange_` on the buffer `W` is not, every other entry is. -/
def isNotSelfRead (W : Buffer) : Expr → Bool
  | ._BufferRange_ buffer _ => decide (buffer ≠ W)
  | _ => true

/-- The block obtained by deleting from the read list every `_BufferRange_`
whose buffer is the buffer of the first write `_BufferRange_`.  A block whose
write list does not start with a `_BufferRange_` has no such buffer and is
left as it is. -/
def dropSelfReads (sche_block : ScheduleBlock) : ScheduleBlock :=
  match sche_block.write_buffers with
  | ._BufferRange_ W _ :: _ =>
    { sche_block with read_buffers := sche_block.read_buffers.filter (isNotSelfRead W) }
  | _ => sche_block

/-- `ContainsNodeType` of `analyze_ir.cc`: the closure accepts the nodes whose
category is in `node_types` and captures no state that it changes. -/
def ContainsNodeType (expr : Expr) (node_types : Finset IrNodeTy) : Bool :=
  let collection : List Expr :=
    (ir_utils.CollectIRNodesWithoutTensor expr
      (fun x (s : Unit) => (decide (x.node_type ∈ node_types), s)) ()).1
  !collection.isEmpty

/-- The inner loop of `GetOutputNamesFromLoweredFunc` over the arguments of one
function. -/
def GetOutputNamesFromLoweredFunc.args_loop : List Argument → Finset String → Finset String
  | [], result => result
  | arg :: rest, result =>
    if arg.is_output then
      GetOutputNamesFromLoweredFunc.args_loop rest (insert arg.name result)
    else
      GetOutputNamesFromLoweredFunc.args_loop rest result

/-- The outer loop of `GetOutputNamesFromLoweredFunc` over the functions. -/
def GetOutputNamesFromLoweredFunc.loop : List LoweredFunc → Finset String → Finset String
  | [], result => result
  | func :: rest, result =>
    GetOutputNamesFromLoweredFunc.loop rest
      (GetOutputNamesFromLoweredFunc.args_loop func.args result)

/-- `GetOutputNamesFromLoweredFunc` of `analyze_ir.cc`. -/
def GetOutputNamesFromLoweredFunc (lowered_funcs : List LoweredFunc) : Finset String :=
  GetOutputNamesFromLoweredFunc.loop lowered_funcs ∅

/-- `GetBlockName` of `analyze_ir.cc`. -/
def GetBlockName (block : Expr) : Outcome String :=
  match block.as_schedule_block_realize with
  | none =>
    Outcome.thrown (common.errors.InvalidArgument "The block is not a ScheduleBlockRealize")
  | some block_realize =>
    match block_realize.schedule_block.as_schedule_block with
    | none => Outcome.thrown (common.errors.InvalidArgument "The block is not a ScheduleBlock")
    | some block_node => Outcome.value block_node.name

namespace examples

/-- Non-reduction iteration variable `i`. -/
def i : Var := ⟨"i", false⟩

/-- Non-reduction iteration variable `j`. -/
def j : Var := ⟨"j", false⟩

/-- Reduction iteration variable `k`. -/
def k : Var := ⟨"k", true⟩

/-- Tensor `A` on buffer 1. -/
def A : Tensor := ⟨"A", ⟨1⟩, []⟩

/-- Tensor `B` on buffer 2. -/
def B : Tensor := ⟨"B", ⟨2⟩, []⟩

/-- Tensor `C` on buffer 3. -/
def C : Tensor := ⟨"C", ⟨3⟩, []⟩

/-- The index list `[i, 3, j + 1, k]`. -/
def mixedIndices : List Expr :=
  [._Var_ i, .IntImm 3, .Add (._Var_ j) (.IntImm 1), ._Var_ k]

/-- The statement `C[i, j] = C[i, j] + A[i, k] * B[k, j]`. -/
def matmulBody : Expr :=
  .Store C
    (.Add (.Load C [._Var_ i, ._Var_ j])
      (.Mul (.Load A [._Var_ i, ._Var_ k]) (.Load B [._Var_ k, ._Var_ j])))
    [._Var_ i, ._Var_ j]

/-- A block around `matmulBody` whose regions are not computed yet. -/
def matmulUnanalyzed : ScheduleBlock :=
  ⟨[i, j, k], [], [], "C", matmulBody⟩

/-- A block around `matmulBody` that carries one read region and no write
region. -/
def matmulHalfAnnotated : ScheduleBlock :=
  ⟨[i, j, k], [._BufferRange_ ⟨1⟩ [i, k]], [], "C", matmulBody⟩

/-- The matmul block `C[i, j] += A[i, k] * B[k, j]` with its regions: reads
`A[i, k]` and `B[k, j]`, write `C[i, j]`. -/
def matmulBlock : ScheduleBlock :=
  ⟨[i, j, k], [._BufferRange_ ⟨1⟩ [i, k], ._BufferRange_ ⟨2⟩ [k, j]],
    [._BufferRange_ ⟨3⟩ [i, j]], "C", matmulBody⟩

/-- An elementwise block: write `C[i, j]`, read `A[i, j]`. -/
def elementwiseBlock : ScheduleBlock :=
  ⟨[i, j], [._BufferRange_ ⟨1⟩ [i, j]], [._BufferRange_ ⟨3⟩ [i, j]], "C",
    .Store C (.Load A [._Var_ i, ._Var_ j]) [._Var_ i, ._Var_ j]⟩

/-- A block with two write regions. -/
def twoWritesBlock : ScheduleBlock :=
  ⟨[i, j], [._BufferRange_ ⟨1⟩ [i]], [._BufferRange_ ⟨3⟩ [i, j], ._BufferRange_ ⟨2⟩ [i, j]],
    "C", .Block []⟩

/-- A realize of the matmul block. -/
def matmulRealize : ScheduleBlockRealize :=
  ⟨[._Var_ ⟨"i0", false⟩, ._Var_ ⟨"j0", false⟩, ._Var_ ⟨"k0", false⟩], .ScheduleBlock matmulBlock⟩

/-- A tensor `S` on buffer 4. -/
def S : Tensor := ⟨"S", ⟨4⟩, []⟩

/-- A tensor `X` on buffer 5. -/
def X : Tensor := ⟨"X", ⟨5⟩, []⟩

/-- A reduction block `S[i] = S[i] + X[i, k]`: write `S[i]`, reads `S[i]`
(the accumulator) and `X[i, k]`, with `k` the reduction axis. -/
def reductionBlock : ScheduleBlock :=
  ⟨[i, k], [._BufferRange_ ⟨4⟩ [i], ._BufferRange_ ⟨5⟩ [i, k]], [._BufferRange_ ⟨4⟩ [i]], "S",
    .Store S (.Add (.Load S [._Var_ i]) (.Load X [._Var_ i, ._Var_ k])) [._Var_ i]⟩

/-- A realize whose `schedule_block` field holds the variable `x`, not a
`ScheduleBlock`. -/
def malformedRealize : ScheduleBlockRealize :=
  ⟨[], ._Var_ ⟨"x", false⟩⟩

/-- The signature `f(in: a, out: b)`. -/
def funcAB : LoweredFunc :=
  ⟨"f", [⟨"a", Direction.kInput⟩, ⟨"b", Direction.kOutput⟩]⟩

/-- The signature `g(in: c, out: b)`. -/
def funcCB : LoweredFunc :=
  ⟨"g", [⟨"c", Direction.kInput⟩, ⟨"b", Direction.kOutput⟩]⟩

/-- A tensor `U` on buffer 7 whose shape is the constant 32. -/
def U : Tensor := ⟨"U", ⟨7⟩, [.IntImm 32]⟩

/-- The load `U[k0]`. -/
def loadU : Expr := .Load U [._Var_ ⟨"k0", false⟩]

/-- A block with an empty write list and one read region. -/
def noWriteBlock : ScheduleBlock :=
  ⟨[i, j], [._BufferRange_ ⟨1⟩ [i]], [], "N", .Block []⟩

/-- The matmul block with its two read regions in the other order. -/
def matmulSwappedReads : ScheduleBlock :=
  { matmulBlock with read_buffers := [._BufferRange_ ⟨2⟩ [k, j], ._BufferRange_ ⟨1⟩ [i, k]] }

/-- The read region `A[]` on buffer 1, indexed by no variable. -/
def scalarRead : Expr := ._BufferRange_ ⟨1⟩ []

/-- A block with `vars` iteration variables named `i`, none a reduction axis,
one write region on buffer 3 and `reads` reads of `scalarRead`: every
iteration variable is unused by every read. -/
def pairsBlock (reads vars : Nat) : ScheduleBlock :=
  ⟨List.replicate vars i, List.replicate reads scalarRead, [._BufferRange_ ⟨3⟩ []], "O",
    .Block []⟩

/-- A block with 65536 reads and 32768 iteration variables: 2^31 pairs of a
read and an unused variable. -/
def overflowBlock : ScheduleBlock := pairsBlock 65536 32768

/-- The block `overflowBlock` with one read less: 65535 reads. -/
def nearOverflowBlock : ScheduleBlock := pairsBlock 65535 32768

end examples

end auto_schedule

end cinn

namespace phi

namespace sparse

/-- The objects behind the three output pointers `dinput`, `dx` and `dy` of a
backward kernel of `sparse.addmm`; `none` stands for a null pointer. -/
structure AddmmGradOutputs (DenseTensor SparseTensor : Type) where
  dinput : Option DenseTensor
  dx : Option SparseTensor
  dy : Option DenseTensor

/-- `AddmmCooDenseGradKernel` of `addmm_grad_kernel.cc`.  The device context,
the tensor classes and the type of `alpha` and `beta` are parameters: every
argument is marked `UNUSED` and the body is the single `PADDLE_THROW`.  The
result pairs the outcome of the call with the output objects it leaves. -/
def AddmmCooDenseGradKernel {Context DenseTensor SparseCooTensor Scalar : Type}
    (_dev_ctx : Context) (_input : DenseTensor) (_x : SparseCooTensor) (_y : DenseTensor)
    (_dout : DenseTensor) (_alpha : Scalar) (_beta : Scalar)
    (outputs : AddmmGradOutputs DenseTensor SparseCooTensor) :
    Outcome Unit × AddmmGradOutputs DenseTensor SparseCooTensor :=
  (Outcome.thrown
    (common.errors.Unimplemented "Not support CPU backward kernel of 'sparse.addmm' now."),
    outputs)

/-- `AddmmCsrDenseGradKernel` of `addmm_grad_kernel.cc`, with the same
parameters as the COO kernel. -/
def AddmmCsrDenseGradKernel {Context DenseTensor SparseCsrTensor Scalar : Type}
    (_dev_ctx : Context) (_input : DenseTensor) (_x : SparseCsrTensor) (_y : DenseTensor)
    (_dout : DenseTensor) (_alpha : Scalar) (_beta : Scalar)
    (outputs : AddmmGradOutputs DenseTensor SparseCsrTensor) :
    Outcome Unit × AddmmGradOutputs DenseTensor SparseCsrTensor :=
  (Outcome.thrown
    (common.errors.Unimplemented "Not support CPU backward kernel of 'sparse.addmm' now."),
    outputs)

end sparse

end phi

namespace cinn

namespace auto_schedule

open ir

/-! ## `IndicesToVars` -/

theorem IndicesToVars.loop_eq (indices : List Expr) (result : List Var) :
    IndicesToVars.loop indices result = result ++ indices.filterMap Expr.as_var := by
  induction indices generalizing result with
  | nil => simp [IndicesToVars.loop]
  | cons e rest ih =>
    cases e <;> simp [IndicesToVars.loop, Expr.as_var, ir_utils.IRCopy, ih]

theorem IndicesToVars_eq_filterMap (indices : List Expr) :
    IndicesToVars indices = indices.filterMap Expr.as_var := by
  simp [IndicesToVars, IndicesToVars.loop_eq]

/-- C7: `IndicesToVars` returns exactly the inputs that are plain variable
references, in their original order and with multiplicity: wrapped again as
expressions, the result is the input with every other expression filtered out,
so each variable kept is the input variable, name included; constants and
compound expressions contribute nothing.  On `[i, 3, j + 1, k]` the result is
`[i, k]`. -/
theorem IndicesToVars_is_variable_subsequence :
    (∀ indices : List Expr,
      (IndicesToVars indices).map Expr._Var_ = indices.filter (fun e => e.as_var.isSome)) ∧
    IndicesToVars examples.mixedIndices = [examples.i, examples.k] := by
  refine ⟨?_, by decide⟩
  intro indices
  rw [IndicesToVars_eq_filterMap]
  induction indices with
  | nil => rfl
  | cons e rest ih =>
    cases e <;> simp [Expr.as_var, List.filterMap_cons, List.filter_cons, ih]

/-! ## `AnalyzeScheduleBlockReadWriteBuffer` -/

theorem AnalyzeScheduleBlockReadWriteBuffer.run_teller (nodes : List Expr)
    (sche_block : ScheduleBlock) :
    ir_utils.CollectIRNodesWithoutTensor.run AnalyzeScheduleBlockReadWriteBuffer.teller
        nodes sche_block =
      ([], { sche_block with
        read_buffers := sche_block.read_buffers ++ nodes.filterMap readRegionOf
        write_buffers := sche_block.write_buffers ++ nodes.filterMap writeRegionOf }) := by
  induction nodes generalizing sche_block with
  | nil => simp [ir_utils.CollectIRNodesWithoutTensor.run]
  | cons x rest ih =>
    cases x <;>
      simp [ir_utils.CollectIRNodesWithoutTensor.run,
        AnalyzeScheduleBlockReadWriteBuffer.teller, ih, readRegionOf, writeRegionOf]

theorem AnalyzeScheduleBlockReadWriteBuffer.of_empty (sche_block : ScheduleBlock)
    (hr : sche_block.read_buffers = []) (hw : sche_block.write_buffers = []) :
    AnalyzeScheduleBlockReadWriteBuffer sche_block =
      { sche_block with
        read_buffers := (ir_utils.VisitWithoutTensor sche_block.body).filterMap readRegionOf
        write_buffers := (ir_utils.VisitWithoutTensor sche_block.body).filterMap writeRegionOf } := by
  simp [AnalyzeScheduleBlockReadWriteBuffer, ir_utils.CollectIRNodesWithoutTensor,
    AnalyzeScheduleBlockReadWriteBuffer.run_teller, hr, hw]

theorem AnalyzeScheduleBlockReadWriteBuffer.of_nonempty (sche_block : ScheduleBlock)
    (h : sche_block.read_buffers ≠ [] ∨ sche_block.write_buffers ≠ []) :
    AnalyzeScheduleBlockReadWriteBuffer sche_block = sche_block := by
  unfold AnalyzeScheduleBlockReadWriteBuffer
  rw [if_pos]
  rcases h with h | h
  · cases hrb : sche_block.read_buffers with
    | nil => exact absurd hrb h
    | cons a l => simp
  · cases hwb : sche_block.write_buffers with
    | nil => exact absurd hwb h
    | cons a l => simp

theorem filterMap_readRegionOf_length (nodes : List Expr) :
    (nodes.filterMap readRegionOf).length = nodes.countP isLoad := by
  induction nodes with
  | nil => rfl
  | cons x rest ih =>
    cases x <;> simp [List.filterMap_cons, readRegionOf, isLoad, ih]

theorem filterMap_writeRegionOf_length (nodes : List Expr) :
    (nodes.filterMap writeRegionOf).length = nodes.countP isStore := by
  induction nodes with
  | nil => rfl
  | cons x rest ih =>
    cases x <;> simp [List.filterMap_cons, writeRegionOf, isStore, ih]

/-- C4: on a block whose read and write lists are both empty, the collector
leaves as read list the regions of the `Load` nodes met by the tensor-opaque
walk of the body, in visiting order, one `_BufferRange_` (buffer of the loaded
tensor, `IndicesToVars` of the load indices) per `Load`, and as write list the
same for the `Store` nodes; no `Load` or `Store` is skipped, whatever its
indices, so the lists are as long as there are such nodes. -/
theorem AnalyzeScheduleBlockReadWriteBuffer_collects (sche_block : ScheduleBlock)
    (hr : sche_block.read_buffers = []) (hw : sche_block.write_buffers = []) :
    AnalyzeScheduleBlockReadWriteBuffer sche_block =
      { sche_block with
        read_buffers := (ir_utils.VisitWithoutTensor sche_block.body).filterMap readRegionOf
        write_buffers := (ir_utils.VisitWithoutTensor sche_block.body).filterMap writeRegionOf } ∧
    (AnalyzeScheduleBlockReadWriteBuffer sche_block).read_buffers.length =
      (ir_utils.VisitWithoutTensor sche_block.body).countP isLoad ∧
    (AnalyzeScheduleBlockReadWriteBuffer sche_block).write_buffers.length =
      (ir_utils.VisitWithoutTensor sche_block.body).countP isStore := by
  have h := AnalyzeScheduleBlockReadWriteBuffer.of_empty sche_block hr hw
  refine ⟨h, ?_, ?_⟩
  · rw [h]; exact filterMap_readRegionOf_length _
  · rw [h]; exact filterMap_writeRegionOf_length _

/-- Witness of C4: the collector on the unanalysed matmul block. -/
theorem AnalyzeScheduleBlockReadWriteBuffer_collects_witness :
    (AnalyzeScheduleBlockReadWriteBuffer examples.matmulUnanalyzed).read_buffers =
      [._BufferRange_ ⟨3⟩ [examples.i, examples.j], ._BufferRange_ ⟨1⟩ [examples.i, examples.k],
        ._BufferRange_ ⟨2⟩ [examples.k, examples.j]] ∧
    (AnalyzeScheduleBlockReadWriteBuffer examples.matmulUnanalyzed).write_buffers =
      [._BufferRange_ ⟨3⟩ [examples.i, examples.j]] ∧
    (AnalyzeScheduleBlockReadWriteBuffer examples.matmulUnanalyzed).read_buffers.length =
      (ir_utils.VisitWithoutTensor examples.matmulUnanalyzed.body).countP isLoad :=
  ⟨rfl, rfl, (AnalyzeScheduleBlockReadWriteBuffer_collects examples.matmulUnanalyzed rfl rfl).2.1⟩

/-- C5: running the collector twice leaves the same block, hence the same read
list and the same write list, as running it once. -/
theorem AnalyzeScheduleBlockReadWriteBuffer_idempotent (sche_block : ScheduleBlock) :
    AnalyzeScheduleBlockReadWriteBuffer (AnalyzeScheduleBlockReadWriteBuffer sche_block) =
      AnalyzeScheduleBlockReadWriteBuffer sche_block := by
  by_cases h : sche_block.read_buffers ≠ [] ∨ sche_block.write_buffers ≠ []
  · rw [AnalyzeScheduleBlockReadWriteBuffer.of_nonempty sche_block h,
      AnalyzeScheduleBlockReadWriteBuffer.of_nonempty sche_block h]
  · simp only [not_or, not_not] at h
    obtain ⟨hr, hw⟩ := h
    rw [AnalyzeScheduleBlockReadWriteBuffer.of_empty sche_block hr hw]
    by_cases h2 : (ir_utils.VisitWithoutTensor sche_block.body).filterMap readRegionOf ≠ [] ∨
        (ir_utils.VisitWithoutTensor sche_block.body).filterMap writeRegionOf ≠ []
    · exact AnalyzeScheduleBlockReadWriteBuffer.of_nonempty _ h2
    · simp only [not_or, not_not] at h2
      rw [AnalyzeScheduleBlockReadWriteBuffer.of_empty _ h2.1 h2.2]

/-- C6 fails as stated: the half-annotated matmul block has a non-empty read
list and an empty write list, the walk of its body meets one `Store` and three
`Load`s, and the collector returns it unchanged: the write list stays empty and
no read region is appended. -/
theorem AnalyzeScheduleBlockReadWriteBuffer_one_list_empty_counterexample :
    examples.matmulHalfAnnotated.read_buffers ≠ [] ∧
    examples.matmulHalfAnnotated.write_buffers = [] ∧
    (ir_utils.VisitWithoutTensor examples.matmulHalfAnnotated.body).countP isStore = 1 ∧
    (ir_utils.VisitWithoutTensor examples.matmulHalfAnnotated.body).countP isLoad = 3 ∧
    (AnalyzeScheduleBlockReadWriteBuffer examples.matmulHalfAnnotated).write_buffers = [] ∧
    (AnalyzeScheduleBlockReadWriteBuffer examples.matmulHalfAnnotated).read_buffers =
      examples.matmulHalfAnnotated.read_buffers ∧
    (AnalyzeScheduleBlockReadWriteBuffer examples.matmulHalfAnnotated).write_buffers ≠
      examples.matmulHalfAnnotated.write_buffers ++
        (ir_utils.VisitWithoutTensor examples.matmulHalfAnnotated.body).filterMap
          writeRegionOf := by
  refine ⟨List.cons_ne_nil _ _, rfl, by decide, by decide, rfl, rfl, ?_⟩
  intro h
  exact absurd (congrArg List.length h) (by decide)

/-- C6 as amended: the collector returns early as soon as one of the two lists
is non-empty; in particular a block in which exactly one of the lists is empty
is returned unchanged, nothing being appended to either list. -/
theorem AnalyzeScheduleBlockReadWriteBuffer_returns_early (sche_block : ScheduleBlock)
    (h : sche_block.read_buffers ≠ [] ∨ sche_block.write_buffers ≠ []) :
    AnalyzeScheduleBlockReadWriteBuffer sche_block = sche_block :=
  AnalyzeScheduleBlockReadWriteBuffer.of_nonempty sche_block h

/-- Witness of the amended C6 on the half-annotated matmul block. -/
theorem AnalyzeScheduleBlockReadWriteBuffer_returns_early_witness :
    (examples.matmulHalfAnnotated.read_buffers ≠ [] ∨
      examples.matmulHalfAnnotated.write_buffers ≠ []) ∧
    AnalyzeScheduleBlockReadWriteBuffer examples.matmulHalfAnnotated =
      examples.matmulHalfAnnotated :=
  ⟨Or.inl (List.cons_ne_nil _ _),
    AnalyzeScheduleBlockReadWriteBuffer_returns_early examples.matmulHalfAnnotated
      (Or.inl (List.cons_ne_nil _ _))⟩

/-! ## `NeedsMultiLevelTiling` -/

theorem NeedsMultiLevelTiling.mem_vars_index_read (ranges : List Var) (s : Finset String)
    (n : String) :
    n ∈ NeedsMultiLevelTiling.vars_index_read ranges s ↔ n ∈ s ∨ ∃ x ∈ ranges, x.name = n := by
  induction ranges generalizing s with
  | nil => simp [NeedsMultiLevelTiling.vars_index_read]
  | cons r rest ih =>
    simp only [NeedsMultiLevelTiling.vars_index_read, ih, Finset.mem_insert, List.mem_cons,
      exists_eq_or_imp]
    constructor
    · rintro ((h | h) | h)
      · exact Or.inr (Or.inl h.symm)
      · exact Or.inl h
      · exact Or.inr (Or.inr h)
    · rintro (h | h | h)
      · exact Or.inl (Or.inr h)
      · exact Or.inl (Or.inl h.symm)
      · exact Or.inr h

theorem Expr.as_buffer_range_eq_some (e : Expr) (b : Buffer) (rs : List Var) :
    e.as_buffer_range = some (b, rs) ↔ e = Expr._BufferRange_ b rs := by
  cases e <;> simp [Expr.as_buffer_range]

theorem unusedBlockVars_le_length (S : Finset String) (vars : List Var) :
    unusedBlockVars S vars ≤ vars.length :=
  List.countP_le_length _

theorem unusedBlockVars_pos_iff (S : Finset String) (vars : List Var) :
    0 < unusedBlockVars S vars ↔ ∃ v ∈ vars, v.is_reduce_axis = false ∧ v.name ∉ S := by
  simp [unusedBlockVars, List.countP_pos_iff]

theorem unusedPairs_cons (W : Buffer) (iter_vars : List Var) (e : Expr) (rest : List Expr) :
    unusedPairs W iter_vars (e :: rest) =
      unusedOfRead W iter_vars e + unusedPairs W iter_vars rest := by
  simp [unusedPairs]

theorem unusedPairs_append (W : Buffer) (iter_vars : List Var) (l1 l2 : List Expr) :
    unusedPairs W iter_vars (l1 ++ l2) =
      unusedPairs W iter_vars l1 + unusedPairs W iter_vars l2 := by
  simp [unusedPairs]

theorem unusedPairs_replicate (W : Buffer) (iter_vars : List Var) (n : Nat) (e : Expr) :
    unusedPairs W iter_vars (List.replicate n e) = n * unusedOfRead W iter_vars e := by
  induction n with
  | zero => simp [unusedPairs]
  | succ n ih => rw [List.replicate_succ, unusedPairs_cons, ih]; ring

theorem unusedPairs_perm (W : Buffer) (iter_vars : List Var) {l1 l2 : List Expr}
    (h : l1.Perm l2) : unusedPairs W iter_vars l1 = unusedPairs W iter_vars l2 :=
  (h.map _).sum_eq

theorem unusedOfRead_le_length (W : Buffer) (iter_vars : List Var) (e : Expr) :
    unusedOfRead W iter_vars e ≤ iter_vars.length := by
  unfold unusedOfRead
  split
  · split
    · exact Nat.zero_le _
    · exact unusedBlockVars_le_length _ _
  · exact Nat.zero_le _

theorem unusedPairs_le (W : Buffer) (iter_vars : List Var) (reads : List Expr) :
    unusedPairs W iter_vars reads ≤ reads.length * iter_vars.length := by
  induction reads with
  | nil => simp [unusedPairs]
  | cons e rest ih =>
    rw [unusedPairs_cons, List.length_cons, Nat.succ_mul]
    have := unusedOfRead_le_length W iter_vars e
    omega

theorem unusedPairs_pos_iff (W : Buffer) (iter_vars : List Var) (reads : List Expr) :
    0 < unusedPairs W iter_vars reads ↔
      ∃ b rs, Expr._BufferRange_ b rs ∈ reads ∧ b ≠ W ∧
        ∃ v ∈ iter_vars, v.is_reduce_axis = false ∧ ∀ x ∈ rs, x.name ≠ v.name := by
  induction reads with
  | nil => simp [unusedPairs]
  | cons e rest ih =>
    rw [unusedPairs_cons, Nat.add_pos_iff_pos_or_pos, ih]
    have hhere : 0 < unusedOfRead W iter_vars e ↔
        ∃ b rs, Expr._BufferRange_ b rs = e ∧ b ≠ W ∧
          ∃ v ∈ iter_vars, v.is_reduce_axis = false ∧ ∀ x ∈ rs, x.name ≠ v.name := by
      cases e
      case _BufferRange_ b rs =>
        by_cases hb : b = W
        · simp [unusedOfRead, Expr.as_buffer_range, hb]
        · simp only [unusedOfRead, Expr.as_buffer_range, hb, if_false, unusedBlockVars_pos_iff,
            NeedsMultiLevelTiling.mem_vars_index_read, Finset.not_mem_empty, false_or,
            not_exists, not_and, Expr._BufferRange_.injEq]
          constructor
          · intro h
            exact ⟨b, rs, ⟨rfl, rfl⟩, hb, h⟩
          · rintro ⟨_, _, ⟨rfl, rfl⟩, _, h⟩
            exact h
      all_goals simp [unusedOfRead, Expr.as_buffer_range]
    rw [hhere]
    constructor
    · rintro (⟨b, rs, he, h⟩ | ⟨b, rs, hmem, h⟩)
      · exact ⟨b, rs, by rw [he]; exact List.mem_cons_self _ _, h⟩
      · exact ⟨b, rs, List.mem_cons_of_mem _ hmem, h⟩
    · rintro ⟨b, rs, hmem, h⟩
      rcases List.mem_cons.mp hmem with he | hmem
      · exact Or.inl ⟨b, rs, he, h⟩
      · exact Or.inr ⟨b, rs, hmem, h⟩

theorem NeedsMultiLevelTiling.n_unused_block_vars_eq (S : Finset String) (vars : List Var)
    (n : Int) (h0 : 0 ≤ n) (hmax : n ≤ INT_MAX) :
    NeedsMultiLevelTiling.n_unused_block_vars S vars n =
      if n + (unusedBlockVars S vars : Int) ≤ INT_MAX then
        Outcome.value (n + (unusedBlockVars S vars : Int))
      else Outcome.undefined := by
  induction vars generalizing n with
  | nil => simp [NeedsMultiLevelTiling.n_unused_block_vars, unusedBlockVars, hmax]
  | cons v rest ih =>
    simp only [NeedsMultiLevelTiling.n_unused_block_vars, unusedBlockVars, List.countP_cons]
    by_cases hred : v.is_reduce_axis = true
    · simp only [hred, Bool.not_true, Bool.false_eq_true, if_false, Bool.false_and,
        Nat.add_zero]
      exact ih n h0 hmax
    · have hred' : v.is_reduce_axis = false := by simpa using hred
      by_cases hin : v.name ∈ S
      · simp only [hred', hin, Bool.not_false, if_true, exists_eq_right, decide_True,
          Bool.not_true, Bool.false_eq_true, if_false, not_true_eq_false, decide_False,
          Bool.and_false, Nat.add_zero]
        exact ih n h0 hmax
      · simp only [hred', hin, Bool.not_false, if_true, exists_eq_right, decide_False,
          not_false_eq_true, decide_True, Bool.and_self, Nat.cast_add, Nat.cast_one]
        by_cases hn : n + 1 ≤ INT_MAX
        · have hadd : int_add n 1 = Outcome.value (n + 1) := by
            simp only [int_add, INT_MIN, INT_MAX] at hn ⊢
            rw [if_pos ⟨by omega, hn⟩]
          rw [hadd]
          simp only [Outcome.bind]
          rw [ih (n + 1) (by omega) hn]
          simp only [unusedBlockVars, add_assoc, add_comm (1 : Int)]
        · have hadd : int_add n 1 = Outcome.undefined := by
            simp only [int_add, INT_MIN, INT_MAX] at hn ⊢
            rw [if_neg (fun h => hn h.2)]
          rw [hadd]
          simp only [Outcome.bind]
          rw [if_neg]
          simp only [INT_MAX] at hn ⊢
          omega

theorem NeedsMultiLevelTiling.total_unused_iter_vars_eq (W : Buffer) (iter_vars : List Var)
    (reads : List Expr) (total : Int) (h0 : 0 ≤ total) (hmax : total ≤ INT_MAX) :
    NeedsMultiLevelTiling.total_unused_iter_vars W iter_vars reads total =
      if (∀ e ∈ reads, e.as_buffer_range.isSome = true) ∧
          total + (unusedPairs W iter_vars reads : Int) ≤ INT_MAX then
        Outcome.value (total + (unusedPairs W iter_vars reads : Int))
      else Outcome.undefined := by
  induction reads generalizing total with
  | nil => simp [NeedsMultiLevelTiling.total_unused_iter_vars, unusedPairs, hmax]
  | cons e rest ih =>
    rw [unusedPairs_cons]
    simp only [NeedsMultiLevelTiling.total_unused_iter_vars, List.forall_mem_cons]
    cases he : e.as_buffer_range with
    | none => simp
    | some p =>
      obtain ⟨b, rs⟩ := p
      by_cases hb : b = W
      · simp only [hb, if_true, unusedOfRead, he, Nat.cast_zero, zero_add, Option.isSome_some,
          true_and]
        exact ih total h0 hmax
      · simp only [hb, if_false, unusedOfRead, he, Option.isSome_some, true_and]
        rw [NeedsMultiLevelTiling.n_unused_block_vars_eq _ _ 0 (le_refl _)
          (by simp [INT_MAX])]
        simp only [zero_add, Nat.cast_add]
        by_cases hc : (unusedBlockVars (NeedsMultiLevelTiling.vars_index_read rs ∅) iter_vars :
            Int) ≤ INT_MAX
        · rw [if_pos hc]
          simp only [Outcome.bind]
          by_cases ht : total + (unusedBlockVars
              (NeedsMultiLevelTiling.vars_index_read rs ∅) iter_vars : Int) ≤ INT_MAX
          · have hadd : int_add total (unusedBlockVars
                (NeedsMultiLevelTiling.vars_index_read rs ∅) iter_vars : Int) =
                Outcome.value (total + (unusedBlockVars
                  (NeedsMultiLevelTiling.vars_index_read rs ∅) iter_vars : Int)) := by
              simp only [int_add, INT_MIN, INT_MAX] at ht ⊢
              rw [if_pos ⟨by omega, ht⟩]
            rw [hadd]
            simp only [Outcome.bind]
            rw [ih _ (by omega) ht]
            simp only [add_assoc]
          · have hadd : int_add total (unusedBlockVars
                (NeedsMultiLevelTiling.vars_index_read rs ∅) iter_vars : Int) =
                Outcome.undefined := by
              simp only [int_add, INT_MIN, INT_MAX] at ht ⊢
              rw [if_neg (fun h => ht h.2)]
            rw [hadd]
            simp only [Outcome.bind]
            rw [if_neg]
            rintro ⟨_, h⟩
            simp only [INT_MAX] at ht h
            omega
        · rw [if_neg hc]
          simp only [Outcome.bind]
          rw [if_neg]
          rintro ⟨_, h⟩
          simp only [INT_MAX] at hc h
          omega

theorem NeedsMultiLevelTiling.total_unused_iter_vars_of_bound (W : Buffer)
    (iter_vars : List Var) (reads : List Expr)
    (hbr : ∀ e ∈ reads, ∃ b rs, e = Expr._BufferRange_ b rs)
    (hsize : reads.length * iter_vars.length ≤ 2147483647) :
    NeedsMultiLevelTiling.total_unused_iter_vars W iter_vars reads 0 =
      Outcome.value (unusedPairs W iter_vars reads : Int) := by
  rw [NeedsMultiLevelTiling.total_unused_iter_vars_eq W iter_vars reads 0 (le_refl _)
    (by simp [INT_MAX]), if_pos, zero_add]
  constructor
  · intro e he
    obtain ⟨b, rs, rfl⟩ := hbr e he
    rfl
  · have := unusedPairs_le W iter_vars reads
    simp only [INT_MAX, zero_add]
    omega

theorem NeedsMultiLevelTiling.of_single_write (iter_values : List Expr)
    (sche_block : ScheduleBlock) (W : Buffer) (wranges : List Var)
    (hw : sche_block.write_buffers = [Expr._BufferRange_ W wranges])
    (hr : sche_block.read_buffers ≠ []) :
    NeedsMultiLevelTiling ⟨iter_values, Expr.ScheduleBlock sche_block⟩ =
      (NeedsMultiLevelTiling.total_unused_iter_vars W sche_block.iter_vars
          sche_block.read_buffers 0).bind
        (fun total_unused_iter_vars => Outcome.value (decide (total_unused_iter_vars ≥ 1))) := by
  cases hrb : sche_block.read_buffers with
  | nil => exact absurd hrb hr
  | cons a l =>
    simp [NeedsMultiLevelTiling, Expr.as_schedule_block, hw, hrb, Expr.as_buffer_range]

theorem NeedsMultiLevelTiling.pairsBlock_eq (iter_values : List Expr) (reads vars : Nat)
    (hreads : 0 < reads) :
    NeedsMultiLevelTiling ⟨iter_values, Expr.ScheduleBlock (examples.pairsBlock reads vars)⟩ =
      if ((reads * vars : Nat) : Int) ≤ INT_MAX then
        Outcome.value (decide (((reads * vars : Nat) : Int) ≥ 1))
      else Outcome.undefined := by
  have hr : (examples.pairsBlock reads vars).read_buffers ≠ [] := by
    intro h
    have h2 := congrArg List.length h
    simp only [examples.pairsBlock, List.length_replicate, List.length_nil] at h2
    omega
  have hpairs : unusedPairs ⟨3⟩ (examples.pairsBlock reads vars).iter_vars
      (examples.pairsBlock reads vars).read_buffers = reads * vars := by
    simp only [examples.pairsBlock, unusedPairs_replicate]
    congr 1
    simp [unusedOfRead, examples.scalarRead, Expr.as_buffer_range, unusedBlockVars,
      List.countP_replicate, NeedsMultiLevelTiling.vars_index_read, examples.i]
  have hall : ∀ e ∈ (examples.pairsBlock reads vars).read_buffers,
      e.as_buffer_range.isSome = true := by
    intro e he
    rw [List.eq_of_mem_replicate he]
    rfl
  rw [NeedsMultiLevelTiling.of_single_write iter_values (examples.pairsBlock reads vars) ⟨3⟩ []
      rfl hr,
    NeedsMultiLevelTiling.total_unused_iter_vars_eq _ _ _ 0 (le_refl _) (by simp [INT_MAX]),
    hpairs]
  simp only [zero_add]
  by_cases hle : ((reads * vars : Nat) : Int) ≤ INT_MAX
  · rw [if_pos ⟨hall, hle⟩, if_pos hle]
    rfl
  · rw [if_neg (fun h => hle h.2), if_neg hle]
    rfl

theorem NeedsMultiLevelTiling.overflowBlock_undefined (iter_values : List Expr) :
    NeedsMultiLevelTiling ⟨iter_values, Expr.ScheduleBlock examples.overflowBlock⟩ =
      Outcome.undefined := by
  unfold examples.overflowBlock
  rw [NeedsMultiLevelTiling.pairsBlock_eq iter_values 65536 32768 (by norm_num), if_neg]
  simp only [INT_MAX]
  norm_num

/-- C1 fails as stated: `overflowBlock` has exactly one write `_BufferRange_`
(buffer 3) and a non-empty read list, its read `scalarRead` is on another
buffer and uses none of the iteration variables, so that the claim has the
call return true; the 2^31 pairs of a read and an unused variable overflow the
`int` counter, and the call has undefined behaviour instead of the verdict
true. -/
theorem NeedsMultiLevelTiling_int_overflow_counterexample :
    examples.overflowBlock.write_buffers = [Expr._BufferRange_ ⟨3⟩ []] ∧
    examples.overflowBlock.read_buffers ≠ [] ∧
    (∃ R_buffer R_ranges,
      Expr._BufferRange_ R_buffer R_ranges ∈ examples.overflowBlock.read_buffers ∧
      R_buffer ≠ ⟨3⟩ ∧
      ∃ v ∈ examples.overflowBlock.iter_vars, v.is_reduce_axis = false ∧
        ∀ x ∈ R_ranges, x.name ≠ v.name) ∧
    NeedsMultiLevelTiling ⟨[], Expr.ScheduleBlock examples.overflowBlock⟩ ≠
      Outcome.value true := by
  refine ⟨rfl, ?_, ?_, ?_⟩
  · intro h
    have h2 := congrArg List.length h
    simp only [examples.overflowBlock, examples.pairsBlock, List.length_replicate,
      List.length_nil] at h2
    omega
  · refine ⟨⟨1⟩, [], ?_, by decide, examples.i, ?_, rfl, ?_⟩
    · exact List.mem_replicate.mpr ⟨by norm_num, rfl⟩
    · exact List.mem_replicate.mpr ⟨by norm_num, rfl⟩
    · intro x hx
      exact absurd hx (List.not_mem_nil _)
  · rw [NeedsMultiLevelTiling.overflowBlock_undefined]
    exact fun h => Outcome.noConfusion h

/-- C1 as amended: on a realize whose block has exactly one write
`_BufferRange_` (buffer `W`), a non-empty read list of `_BufferRange_`s and at
most 2^31 - 1 pairs of a read entry and an iteration variable,
`NeedsMultiLevelTiling` returns a verdict, and the verdict is true if and only
if some read `_BufferRange_` on a buffer other than `W` and some iteration
variable of the block that is not a reduction axis are such that the name of
the variable is the name of no variable in the ranges of the read. -/
theorem NeedsMultiLevelTiling_true_iff (iter_values : List Expr)
    (sche_block : ScheduleBlock) (W : Buffer) (wranges : List Var)
    (hw : sche_block.write_buffers = [Expr._BufferRange_ W wranges])
    (hr : sche_block.read_buffers ≠ [])
    (hbr : ∀ e ∈ sche_block.read_buffers, ∃ b rs, e = Expr._BufferRange_ b rs)
    (hsize : sche_block.read_buffers.length * sche_block.iter_vars.length ≤ 2147483647) :
    ∃ verdict : Bool,
      NeedsMultiLevelTiling ⟨iter_values, Expr.ScheduleBlock sche_block⟩ =
        Outcome.value verdict ∧
      (verdict = true ↔
        ∃ R_buffer R_ranges, Expr._BufferRange_ R_buffer R_ranges ∈ sche_block.read_buffers ∧
          R_buffer ≠ W ∧
          ∃ v ∈ sche_block.iter_vars, v.is_reduce_axis = false ∧
            ∀ x ∈ R_ranges, x.name ≠ v.name) := by
  refine ⟨decide ((unusedPairs W sche_block.iter_vars sche_block.read_buffers : Int) ≥ 1),
    ?_, ?_⟩
  · rw [NeedsMultiLevelTiling.of_single_write iter_values sche_block W wranges hw hr,
      NeedsMultiLevelTiling.total_unused_iter_vars_of_bound W _ _ hbr hsize]
    rfl
  · rw [← unusedPairs_pos_iff]
    simp only [decide_eq_true_eq]
    omega

/-- Witness of the amended C1: the matmul block (write `C[i, j]`, reads
`A[i, k]` and `B[k, j]`) needs tiling, the elementwise block (write `C[i, j]`,
read `A[i, j]`) does not. -/
theorem NeedsMultiLevelTiling_true_iff_witness :
    NeedsMultiLevelTiling examples.matmulRealize = Outcome.value true ∧
    NeedsMultiLevelTiling ⟨[], Expr.ScheduleBlock examples.elementwiseBlock⟩ =
      Outcome.value false ∧
    ∃ verdict : Bool,
      NeedsMultiLevelTiling examples.matmulRealize = Outcome.value verdict ∧
      (verdict = true ↔
        ∃ R_buffer R_ranges,
          Expr._BufferRange_ R_buffer R_ranges ∈ examples.matmulBlock.read_buffers ∧
          R_buffer ≠ ⟨3⟩ ∧
          ∃ v ∈ examples.matmulBlock.iter_vars, v.is_reduce_axis = false ∧
            ∀ x ∈ R_ranges, x.name ≠ v.name) :=
  ⟨rfl, rfl,
    NeedsMultiLevelTiling_true_iff _ examples.matmulBlock ⟨3⟩ [examples.i, examples.j] rfl
      (List.cons_ne_nil _ _) (by simp [examples.matmulBlock]) (by decide)⟩

/-- C3: a realize whose block has more than one write entry, or no read entry,
gets the verdict false, whatever its iteration variables, iter values and
remaining regions are. -/
theorem NeedsMultiLevelTiling_fast_rejection (iter_values : List Expr)
    (sche_block : ScheduleBlock)
    (h : 1 < sche_block.write_buffers.length ∨ sche_block.read_buffers = []) :
    NeedsMultiLevelTiling ⟨iter_values, Expr.ScheduleBlock sche_block⟩ =
      Outcome.value false := by
  simp only [NeedsMultiLevelTiling, Expr.as_schedule_block]
  rw [if_pos]
  rcases h with h | h
  · exact Or.inl (by omega)
  · exact Or.inr (by simp [h])

/-- Witness of C3: a block with two write regions, and the unanalysed matmul
block, which has no read region. -/
theorem NeedsMultiLevelTiling_fast_rejection_witness :
    NeedsMultiLevelTiling ⟨[], Expr.ScheduleBlock examples.twoWritesBlock⟩ =
      Outcome.value false ∧
    NeedsMultiLevelTiling ⟨[], Expr.ScheduleBlock examples.matmulUnanalyzed⟩ =
      Outcome.value false :=
  ⟨NeedsMultiLevelTiling_fast_rejection [] examples.twoWritesBlock (Or.inl (by decide)),
    NeedsMultiLevelTiling_fast_rejection [] examples.matmulUnanalyzed (Or.inr rfl)⟩

theorem NeedsMultiLevelTiling.total_unused_iter_vars_filter (W : Buffer)
    (iter_vars : List Var) (reads : List Expr) (total : Int) :
    NeedsMultiLevelTiling.total_unused_iter_vars W iter_vars
        (reads.filter (isNotSelfRead W)) total =
      NeedsMultiLevelTiling.total_unused_iter_vars W iter_vars reads total := by
  induction reads generalizing total with
  | nil => rfl
  | cons e rest ih =>
    cases e
    case _BufferRange_ b rs =>
      by_cases hb : b = W
      · simp [List.filter_cons, isNotSelfRead, hb, ih,
          NeedsMultiLevelTiling.total_unused_iter_vars, Expr.as_buffer_range]
      · simp [List.filter_cons, isNotSelfRead, hb, ih,
          NeedsMultiLevelTiling.total_unused_iter_vars, Expr.as_buffer_range]
    all_goals
      simp [List.filter_cons, isNotSelfRead, NeedsMultiLevelTiling.total_unused_iter_vars,
        Expr.as_buffer_range]

theorem NeedsMultiLevelTiling.of_single_write_any_reads (iter_values : List Expr)
    (sche_block : ScheduleBlock) (W : Buffer) (wranges : List Var)
    (hw : sche_block.write_buffers = [Expr._BufferRange_ W wranges]) :
    NeedsMultiLevelTiling ⟨iter_values, Expr.ScheduleBlock sche_block⟩ =
      (NeedsMultiLevelTiling.total_unused_iter_vars W sche_block.iter_vars
          sche_block.read_buffers 0).bind
        (fun total_unused_iter_vars => Outcome.value (decide (total_unused_iter_vars ≥ 1))) := by
  by_cases hr : sche_block.read_buffers = []
  · simp [NeedsMultiLevelTiling, Expr.as_schedule_block, hw, hr,
      NeedsMultiLevelTiling.total_unused_iter_vars, Outcome.bind]
  · exact NeedsMultiLevelTiling.of_single_write iter_values sche_block W wranges hw hr

/-- C2: self-reads carry no tiling signal.  `NeedsMultiLevelTiling` gives the
same outcome on a block and on the block obtained by deleting from its read
list every `_BufferRange_` on the buffer of the first write `_BufferRange_`,
also when the deletion empties the read list.  On the reduction block (write
`S[i]`, reads `S[i]` and `X[i, k]`) the verdict is false, as it is with the
single read `X[i, k]`. -/
theorem NeedsMultiLevelTiling_ignores_self_reads :
    (∀ (iter_values : List Expr) (sche_block : ScheduleBlock),
      NeedsMultiLevelTiling ⟨iter_values, Expr.ScheduleBlock sche_block⟩ =
        NeedsMultiLevelTiling ⟨iter_values, Expr.ScheduleBlock (dropSelfReads sche_block)⟩) ∧
    NeedsMultiLevelTiling ⟨[], Expr.ScheduleBlock examples.reductionBlock⟩ =
      Outcome.value false ∧
    (dropSelfReads examples.reductionBlock).read_buffers =
      [Expr._BufferRange_ ⟨5⟩ [examples.i, examples.k]] ∧
    NeedsMultiLevelTiling ⟨[], Expr.ScheduleBlock (dropSelfReads examples.reductionBlock)⟩ =
      Outcome.value false := by
  refine ⟨?_, rfl, rfl, rfl⟩
  intro iter_values sche_block
  cases hwb : sche_block.write_buffers with
  | nil => simp [dropSelfReads, hwb]
  | cons w ws =>
    cases w
    case _BufferRange_ W wranges =>
      have hdrop : dropSelfReads sche_block =
          { sche_block with read_buffers := sche_block.read_buffers.filter (isNotSelfRead W) } := by
        simp [dropSelfReads, hwb]
      rw [hdrop]
      cases ws with
      | nil =>
        have h2 := NeedsMultiLevelTiling.of_single_write_any_reads iter_values
          { sche_block with read_buffers := sche_block.read_buffers.filter (isNotSelfRead W) }
          W wranges hwb
        rw [NeedsMultiLevelTiling.of_single_write_any_reads iter_values sche_block W wranges hwb,
          h2]
        simp only [NeedsMultiLevelTiling.total_unused_iter_vars_filter]
      | cons w2 ws2 =>
        simp [NeedsMultiLevelTiling, Expr.as_schedule_block, hwb]
    all_goals simp [dropSelfReads, hwb]

/-! ## `GetReduceLoopVarNames` -/

mutual
theorem VisitWithoutTensor_eq_subexprs :
    ∀ e : Expr, ir_utils.VisitWithoutTensor e = e.subexprs
  | .IntImm _ => by simp [ir_utils.VisitWithoutTensor, Expr.subexprs]
  | ._Var_ _ => by simp [ir_utils.VisitWithoutTensor, Expr.subexprs]
  | .Add a b => by
    simp only [ir_utils.VisitWithoutTensor, Expr.subexprs,
      VisitWithoutTensor_eq_subexprs a, VisitWithoutTensor_eq_subexprs b]
  | .Sub a b => by
    simp only [ir_utils.VisitWithoutTensor, Expr.subexprs,
      VisitWithoutTensor_eq_subexprs a, VisitWithoutTensor_eq_subexprs b]
  | .Mul a b => by
    simp only [ir_utils.VisitWithoutTensor, Expr.subexprs,
      VisitWithoutTensor_eq_subexprs a, VisitWithoutTensor_eq_subexprs b]
  | .Div a b => by
    simp only [ir_utils.VisitWithoutTensor, Expr.subexprs,
      VisitWithoutTensor_eq_subexprs a, VisitWithoutTensor_eq_subexprs b]
  | .Mod a b => by
    simp only [ir_utils.VisitWithoutTensor, Expr.subexprs,
      VisitWithoutTensor_eq_subexprs a, VisitWithoutTensor_eq_subexprs b]
  | ._Tensor_ ⟨_, _, shape⟩ => by
    simp only [ir_utils.VisitWithoutTensor, Expr.subexprs, ir_utils.VisitWithoutTensorShape,
      Expr.subexprsTensor, VisitWithoutTensorList_eq_subexprsList shape]
  | .Load ⟨_, _, shape⟩ indices => by
    simp only [ir_utils.VisitWithoutTensor, Expr.subexprs, ir_utils.VisitWithoutTensorShape,
      Expr.subexprsTensor, VisitWithoutTensorList_eq_subexprsList shape,
      VisitWithoutTensorList_eq_subexprsList indices]
  | .Store ⟨_, _, shape⟩ value indices => by
    simp only [ir_utils.VisitWithoutTensor, Expr.subexprs, ir_utils.VisitWithoutTensorShape,
      Expr.subexprsTensor, VisitWithoutTensorList_eq_subexprsList shape,
      VisitWithoutTensorList_eq_subexprsList indices, VisitWithoutTensor_eq_subexprs value]
  | ._BufferRange_ _ _ => by simp [ir_utils.VisitWithoutTensor, Expr.subexprs]
  | .For _ min extent body => by
    simp only [ir_utils.VisitWithoutTensor, Expr.subexprs,
      VisitWithoutTensor_eq_subexprs min, VisitWithoutTensor_eq_subexprs extent,
      VisitWithoutTensor_eq_subexprs body]
  | .Block stmts => by
    simp only [ir_utils.VisitWithoutTensor, Expr.subexprs,
      VisitWithoutTensorList_eq_subexprsList stmts]
  | .ScheduleBlock ⟨_, read_buffers, write_buffers, _, body⟩ => by
    simp only [ir_utils.VisitWithoutTensor, Expr.subexprs, ir_utils.VisitWithoutTensorBlock,
      Expr.subexprsBlock, VisitWithoutTensorList_eq_subexprsList read_buffers,
      VisitWithoutTensorList_eq_subexprsList write_buffers,
      VisitWithoutTensor_eq_subexprs body]
  | .ScheduleBlockRealize ⟨iter_values, schedule_block⟩ => by
    simp only [ir_utils.VisitWithoutTensor, Expr.subexprs, ir_utils.VisitWithoutTensorRealize,
      Expr.subexprsRealize, VisitWithoutTensorList_eq_subexprsList iter_values,
      VisitWithoutTensor_eq_subexprs schedule_block]
theorem VisitWithoutTensorList_eq_subexprsList :
    ∀ es : List Expr, ir_utils.VisitWithoutTensorList es = Expr.subexprsList es
  | [] => by simp [ir_utils.VisitWithoutTensorList, Expr.subexprsList]
  | e :: rest => by
    simp only [ir_utils.VisitWithoutTensorList, Expr.subexprsList,
      VisitWithoutTensor_eq_subexprs e, VisitWithoutTensorList_eq_subexprsList rest]
end

theorem GetReduceLoopVarNames.loop_ne_thrown (iter_values : List Expr) (vars : List Var)
    (i : Nat) (acc : Finset String) (e : common.ErrorSummary) :
    GetReduceLoopVarNames.loop iter_values vars i acc ≠ Outcome.thrown e := by
  induction vars generalizing i acc with
  | nil => simp [GetReduceLoopVarNames.loop]
  | cons iter_var rest ih =>
    simp only [GetReduceLoopVarNames.loop]
    split
    · split
      · simp
      · exact ih _ _
    · exact ih _ _

/-- C9: `GetReduceLoopVarNames` throws if and only if its argument is not a
`ScheduleBlockRealize` or the `schedule_block` of the realize is not a
`ScheduleBlock`.  The outer cast is checked first: the error is
`InvalidArgument` with the message "The block is not a ScheduleBlockRealize"
exactly when the argument is not a realize, and `InvalidArgument` with the
message "The block is not a ScheduleBlock" exactly when it is a realize whose
`schedule_block` is not a `ScheduleBlock`. -/
theorem GetReduceLoopVarNames_throws_iff (block : Expr) :
    ((∃ e, GetReduceLoopVarNames block = Outcome.thrown e) ↔
      (block.as_schedule_block_realize = none ∨
        ∃ r, block.as_schedule_block_realize = some r ∧
          r.schedule_block.as_schedule_block = none)) ∧
    (GetReduceLoopVarNames block =
        Outcome.thrown ⟨common.ErrorCode.INVALID_ARGUMENT,
          "The block is not a ScheduleBlockRealize"⟩ ↔
      block.as_schedule_block_realize = none) ∧
    (GetReduceLoopVarNames block =
        Outcome.thrown ⟨common.ErrorCode.INVALID_ARGUMENT,
          "The block is not a ScheduleBlock"⟩ ↔
      ∃ r, block.as_schedule_block_realize = some r ∧
        r.schedule_block.as_schedule_block = none) := by
  cases hr : block.as_schedule_block_realize with
  | none =>
    simp [GetReduceLoopVarNames, hr, common.errors.InvalidArgument]
  | some r =>
    cases hb : r.schedule_block.as_schedule_block with
    | none =>
      simp [GetReduceLoopVarNames, hr, hb, common.errors.InvalidArgument]
    | some b =>
      simp [GetReduceLoopVarNames, hr, hb, GetReduceLoopVarNames.loop_ne_thrown]

/-- C10 does not hold of the code: on a realize whose `schedule_block` is not a
`ScheduleBlock`, `NeedsMultiLevelTiling` uses the null result of the cast
without a check, which is undefined behaviour and no `InvalidArgument` error,
whereas `GetReduceLoopVarNames` rejects the same realize with
`InvalidArgument`. -/
theorem NeedsMultiLevelTiling_unchecked_cast :
    examples.malformedRealize.schedule_block.as_schedule_block = none ∧
    NeedsMultiLevelTiling examples.malformedRealize = Outcome.undefined ∧
    (∀ e, NeedsMultiLevelTiling examples.malformedRealize ≠ Outcome.thrown e) ∧
    GetReduceLoopVarNames (Expr.ScheduleBlockRealize examples.malformedRealize) =
      Outcome.thrown (common.errors.InvalidArgument "The block is not a ScheduleBlock") := by
  refine ⟨rfl, rfl, ?_, rfl⟩
  intro e h
  have h2 : NeedsMultiLevelTiling examples.malformedRealize = Outcome.undefined := rfl
  rw [h2] at h
  exact Outcome.noConfusion h

/-! ## `GetOutputNamesFromLoweredFunc` -/

theorem GetOutputNamesFromLoweredFunc.mem_args_loop (args : List Argument)
    (result : Finset String) (n : String) :
    n ∈ GetOutputNamesFromLoweredFunc.args_loop args result ↔
      n ∈ result ∨ ∃ arg ∈ args, arg.io = Direction.kOutput ∧ arg.name = n := by
  induction args generalizing result with
  | nil => simp [GetOutputNamesFromLoweredFunc.args_loop]
  | cons arg rest ih =>
    simp only [GetOutputNamesFromLoweredFunc.args_loop, List.mem_cons, exists_eq_or_imp]
    by_cases hout : arg.io = Direction.kOutput
    · have hb : arg.is_output = true := by simp [Argument.is_output, hout]
      simp only [hb, if_true, ih, Finset.mem_insert, hout, true_and]
      constructor
      · rintro ((h | h) | h)
        · exact Or.inr (Or.inl h.symm)
        · exact Or.inl h
        · exact Or.inr (Or.inr h)
      · rintro (h | h | h)
        · exact Or.inl (Or.inr h)
        · exact Or.inl (Or.inl h.symm)
        · exact Or.inr h
    · have hb : arg.is_output = false := by
        simp only [Argument.is_output, decide_eq_false_iff_not]
        exact fun h => hout h.symm
      simp [hb, ih, hout]

theorem GetOutputNamesFromLoweredFunc.mem_loop (lowered_funcs : List LoweredFunc)
    (result : Finset String) (n : String) :
    n ∈ GetOutputNamesFromLoweredFunc.loop lowered_funcs result ↔
      n ∈ result ∨
        ∃ func ∈ lowered_funcs, ∃ arg ∈ func.args, arg.io = Direction.kOutput ∧ arg.name = n := by
  induction lowered_funcs generalizing result with
  | nil => simp [GetOutputNamesFromLoweredFunc.loop]
  | cons func rest ih =>
    simp only [GetOutputNamesFromLoweredFunc.loop, ih,
      GetOutputNamesFromLoweredFunc.mem_args_loop, List.mem_cons, exists_eq_or_imp]
    exact or_assoc

/-- C11: a name is in the set returned by `GetOutputNamesFromLoweredFunc` if
and only if some function of the list has an argument of that name whose
direction is output, so the names of input-only arguments are absent; the
result is a set, in which a name that is an output of several functions occurs
once.  The signatures `(in: a, out: b)` and `(in: c, out: b)` yield `{b}`. -/
theorem GetOutputNamesFromLoweredFunc_names :
    (∀ (lowered_funcs : List LoweredFunc) (n : String),
      n ∈ GetOutputNamesFromLoweredFunc lowered_funcs ↔
        ∃ func ∈ lowered_funcs, ∃ arg ∈ func.args,
          arg.io = Direction.kOutput ∧ arg.name = n) ∧
    (∀ (lowered_funcs : List LoweredFunc) (n : String),
      (GetOutputNamesFromLoweredFunc lowered_funcs).val.count n ≤ 1) ∧
    GetOutputNamesFromLoweredFunc [examples.funcAB, examples.funcCB] = {"b"} ∧
    (GetOutputNamesFromLoweredFunc [examples.funcAB, examples.funcCB]).val.count "b" = 1 := by
  refine ⟨?_, ?_, rfl, by decide⟩
  · intro lowered_funcs n
    simp [GetOutputNamesFromLoweredFunc, GetOutputNamesFromLoweredFunc.mem_loop]
  · intro lowered_funcs n
    exact Multiset.nodup_iff_count_le_one.mp (GetOutputNamesFromLoweredFunc lowered_funcs).nodup n

/-! ## `ContainsNodeType` -/

theorem CollectIRNodesWithoutTensor.run_pure (p : Expr → Bool) (nodes : List Expr) :
    (ir_utils.CollectIRNodesWithoutTensor.run (fun x (s : Unit) => (p x, s)) nodes ()).1 =
      nodes.filter p := by
  induction nodes with
  | nil => rfl
  | cons x rest ih =>
    simp only [ir_utils.CollectIRNodesWithoutTensor.run, ih, List.filter_cons]

theorem ContainsNodeType.eq_true_iff (expr : Expr) (node_types : Finset IrNodeTy) :
    ContainsNodeType expr node_types = true ↔
      ∃ x ∈ ir_utils.VisitWithoutTensor expr, x.node_type ∈ node_types := by
  simp only [ContainsNodeType, ir_utils.CollectIRNodesWithoutTensor,
    CollectIRNodesWithoutTensor.run_pure (fun x => decide (x.node_type ∈ node_types))]
  cases hf : (ir_utils.VisitWithoutTensor expr).filter
      (fun x => decide (x.node_type ∈ node_types)) with
  | nil =>
    simp only [List.isEmpty_nil, Bool.not_true, Bool.false_eq_true, false_iff, not_exists,
      not_and]
    intro x hx hmem
    have : x ∈ (ir_utils.VisitWithoutTensor expr).filter
        (fun x => decide (x.node_type ∈ node_types)) :=
      List.mem_filter.mpr ⟨hx, by simpa using hmem⟩
    rw [hf] at this
    exact absurd this (List.not_mem_nil _)
  | cons y l =>
    simp only [List.isEmpty_cons, Bool.not_false, true_iff]
    have : y ∈ (ir_utils.VisitWithoutTensor expr).filter
        (fun x => decide (x.node_type ∈ node_types)) := by
      rw [hf]
      exact List.mem_cons_self _ _
    obtain ⟨hy, hty⟩ := List.mem_filter.mp this
    exact ⟨y, hy, by simpa using hty⟩

/-- C12: `ContainsNodeType` returns true if and only if at least one node of
the subtree of the expression, the root included, has a category that belongs
to the set; in particular it returns false for the empty set. -/
theorem ContainsNodeType_true_iff (expr : Expr) (node_types : Finset IrNodeTy) :
    (ContainsNodeType expr node_types = true ↔
      ∃ x ∈ expr.subexprs, x.node_type ∈ node_types) ∧
    ContainsNodeType expr ∅ = false := by
  constructor
  · rw [ContainsNodeType.eq_true_iff, VisitWithoutTensor_eq_subexprs]
  · cases h : ContainsNodeType expr ∅ with
    | false => rfl
    | true =>
      obtain ⟨x, _, hty⟩ := (ContainsNodeType.eq_true_iff expr ∅).mp h
      exact absurd hty (Finset.not_mem_empty _)

/-- Witness of C12: the matmul statement contains a `Load` and no `For`, and
the load `U[k0]` contains the constant of the shape of `U`. -/
theorem ContainsNodeType_true_iff_witness :
    ContainsNodeType examples.matmulBody {IrNodeTy.Load} = true ∧
    ContainsNodeType examples.matmulBody {IrNodeTy.For} = false ∧
    ContainsNodeType examples.loadU {IrNodeTy.IntImm} = true ∧
    ∃ x ∈ examples.matmulBody.subexprs, x.node_type ∈ ({IrNodeTy.Load} : Finset IrNodeTy) :=
  ⟨by decide, by decide, by decide,
    (ContainsNodeType_true_iff examples.matmulBody {IrNodeTy.Load}).1.mp (by decide)⟩

/-! ## `GetBlockName` -/

/-- C18: `GetBlockName` returns the name of the wrapped `ScheduleBlock` on every
realize wrapping one, and it throws exactly the error that
`GetReduceLoopVarNames` throws, on exactly the same arguments: `InvalidArgument`
with "The block is not a ScheduleBlockRealize" when the argument is not a
realize, with "The block is not a ScheduleBlock" when the `schedule_block` of
the realize is not a `ScheduleBlock`. -/
theorem GetBlockName_name_or_same_error (block : Expr) :
    (∀ e, GetBlockName block = Outcome.thrown e ↔
      GetReduceLoopVarNames block = Outcome.thrown e) ∧
    (GetBlockName block =
        Outcome.thrown ⟨common.ErrorCode.INVALID_ARGUMENT,
          "The block is not a ScheduleBlockRealize"⟩ ↔
      block.as_schedule_block_realize = none) ∧
    (GetBlockName block =
        Outcome.thrown ⟨common.ErrorCode.INVALID_ARGUMENT,
          "The block is not a ScheduleBlock"⟩ ↔
      ∃ r, block.as_schedule_block_realize = some r ∧
        r.schedule_block.as_schedule_block = none) ∧
    (∀ (iter_values : List Expr) (block_node : ScheduleBlock),
      GetBlockName (Expr.ScheduleBlockRealize ⟨iter_values, Expr.ScheduleBlock block_node⟩) =
        Outcome.value block_node.name) := by
  refine ⟨?_, ?_, ?_, fun _ _ => rfl⟩ <;>
  cases hr : block.as_schedule_block_realize with
  | none =>
    simp [GetBlockName, GetReduceLoopVarNames, hr, common.errors.InvalidArgument]
  | some r =>
    cases hb : r.schedule_block.as_schedule_block with
    | none =>
      simp [GetBlockName, GetReduceLoopVarNames, hr, hb, common.errors.InvalidArgument]
    | some b =>
      simp [GetBlockName, GetReduceLoopVarNames, hr, hb, GetReduceLoopVarNames.loop_ne_thrown]

/-! ## Safety of the unchecked accesses -/

/-- C16 fails as stated: every read and write entry of `overflowBlock` is a
`_BufferRange_`, and the call returns no verdict: the 2^31 pairs of a read and
an unused variable overflow the `int` counter, which is undefined
behaviour. -/
theorem NeedsMultiLevelTiling_total_int_overflow_counterexample :
    (∀ e ∈ examples.overflowBlock.read_buffers, ∃ b rs, e = Expr._BufferRange_ b rs) ∧
    (∀ e ∈ examples.overflowBlock.write_buffers, ∃ b rs, e = Expr._BufferRange_ b rs) ∧
    ∀ verdict, NeedsMultiLevelTiling ⟨[], Expr.ScheduleBlock examples.overflowBlock⟩ ≠
      Outcome.value verdict := by
  refine ⟨?_, ?_, ?_⟩
  · intro e he
    exact ⟨⟨1⟩, [], List.eq_of_mem_replicate he⟩
  · intro e he
    have he' : e ∈ [Expr._BufferRange_ ⟨3⟩ []] := he
    exact ⟨⟨3⟩, [], List.mem_singleton.mp he'⟩
  · intro verdict
    rw [NeedsMultiLevelTiling.overflowBlock_undefined]
    exact fun h => Outcome.noConfusion h

/-- C16 as amended: on a realize wrapping a block whose read and write entries
are all `_BufferRange_`s, `NeedsMultiLevelTiling` returns a verdict whenever
the block has at most 2^31 - 1 pairs of a read entry and an iteration
variable: `write_buffers[0]` is read only when the write list has exactly one
entry.  With an empty write list the verdict is false, whatever the size of
the block. -/
theorem NeedsMultiLevelTiling_total (iter_values : List Expr) (sche_block : ScheduleBlock)
    (hreads : ∀ e ∈ sche_block.read_buffers, ∃ b rs, e = Expr._BufferRange_ b rs)
    (hwrites : ∀ e ∈ sche_block.write_buffers, ∃ b rs, e = Expr._BufferRange_ b rs) :
    (sche_block.read_buffers.length * sche_block.iter_vars.length ≤ 2147483647 →
      ∃ verdict, NeedsMultiLevelTiling ⟨iter_values, Expr.ScheduleBlock sche_block⟩ =
        Outcome.value verdict) ∧
    (sche_block.write_buffers = [] →
      NeedsMultiLevelTiling ⟨iter_values, Expr.ScheduleBlock sche_block⟩ =
        Outcome.value false) := by
  constructor
  · intro hsize
    cases hwb : sche_block.write_buffers with
    | nil => exact ⟨false, by simp [NeedsMultiLevelTiling, Expr.as_schedule_block, hwb]⟩
    | cons w ws =>
      cases ws with
      | cons w2 ws2 =>
        exact ⟨false, by simp [NeedsMultiLevelTiling, Expr.as_schedule_block, hwb]⟩
      | nil =>
        obtain ⟨W, wranges, rfl⟩ := hwrites w (by rw [hwb]; exact List.mem_cons_self _ _)
        refine ⟨decide ((unusedPairs W sche_block.iter_vars sche_block.read_buffers : Int)
          ≥ 1), ?_⟩
        rw [NeedsMultiLevelTiling.of_single_write_any_reads iter_values sche_block W wranges hwb,
          NeedsMultiLevelTiling.total_unused_iter_vars_of_bound W _ _ hreads hsize]
        rfl
  · intro hwb
    simp [NeedsMultiLevelTiling, Expr.as_schedule_block, hwb]

/-- Witness of the amended C16: a block with an empty write list and one read
region. -/
theorem NeedsMultiLevelTiling_total_witness :
    (∃ verdict, NeedsMultiLevelTiling ⟨[], Expr.ScheduleBlock examples.noWriteBlock⟩ =
      Outcome.value verdict) ∧
    NeedsMultiLevelTiling ⟨[], Expr.ScheduleBlock examples.noWriteBlock⟩ =
      Outcome.value false :=
  ⟨(NeedsMultiLevelTiling_total [] examples.noWriteBlock
      (by simp [examples.noWriteBlock]) (by simp [examples.noWriteBlock])).1 (by decide),
    (NeedsMultiLevelTiling_total [] examples.noWriteBlock
      (by simp [examples.noWriteBlock]) (by simp [examples.noWriteBlock])).2 rfl⟩

/-! ## Frame of `AnalyzeScheduleBlockReadWriteBuffer` -/

/-- C15: the collector leaves the name, the body and the iteration variables
of the block unchanged and only appends to the two region lists: each list
before the call is a prefix of the list after the call.  When one of the lists
is non-empty beforehand, the whole block is unchanged. -/
theorem AnalyzeScheduleBlockReadWriteBuffer_frame (sche_block : ScheduleBlock) :
    (AnalyzeScheduleBlockReadWriteBuffer sche_block).name = sche_block.name ∧
    (AnalyzeScheduleBlockReadWriteBuffer sche_block).body = sche_block.body ∧
    (AnalyzeScheduleBlockReadWriteBuffer sche_block).iter_vars = sche_block.iter_vars ∧
    sche_block.read_buffers <+: (AnalyzeScheduleBlockReadWriteBuffer sche_block).read_buffers ∧
    sche_block.write_buffers <+: (AnalyzeScheduleBlockReadWriteBuffer sche_block).write_buffers ∧
    (sche_block.read_buffers ≠ [] ∨ sche_block.write_buffers ≠ [] →
      AnalyzeScheduleBlockReadWriteBuffer sche_block = sche_block) := by
  by_cases h : sche_block.read_buffers ≠ [] ∨ sche_block.write_buffers ≠ []
  · rw [AnalyzeScheduleBlockReadWriteBuffer.of_nonempty sche_block h]
    exact ⟨rfl, rfl, rfl, List.prefix_refl _, List.prefix_refl _, fun _ => rfl⟩
  · have h' := h
    simp only [not_or, not_not] at h'
    rw [AnalyzeScheduleBlockReadWriteBuffer.of_empty sche_block h'.1 h'.2]
    refine ⟨rfl, rfl, rfl, ?_, ?_, fun hne => absurd hne h⟩
    · rw [h'.1]; exact List.nil_prefix
    · rw [h'.2]; exact List.nil_prefix

/-- Witness of C15: the half-annotated matmul block is returned unchanged. -/
theorem AnalyzeScheduleBlockReadWriteBuffer_frame_witness :
    (AnalyzeScheduleBlockReadWriteBuffer examples.matmulUnanalyzed).body =
      examples.matmulUnanalyzed.body ∧
    AnalyzeScheduleBlockReadWriteBuffer examples.matmulHalfAnnotated =
      examples.matmulHalfAnnotated :=
  ⟨(AnalyzeScheduleBlockReadWriteBuffer_frame examples.matmulUnanalyzed).2.1,
    (AnalyzeScheduleBlockReadWriteBuffer_frame examples.matmulHalfAnnotated).2.2.2.2.2
      (Or.inl (List.cons_ne_nil _ _))⟩

/-! ## Monotonicity of `NeedsMultiLevelTiling` in the read list -/

theorem NeedsMultiLevelTiling.total_unused_iter_vars_perm (W : Buffer) (iter_vars : List Var)
    {l1 l2 : List Expr} (h : l1.Perm l2) :
    NeedsMultiLevelTiling.total_unused_iter_vars W iter_vars l1 0 =
      NeedsMultiLevelTiling.total_unused_iter_vars W iter_vars l2 0 := by
  have hall : (∀ e ∈ l1, e.as_buffer_range.isSome = true) ↔
      (∀ e ∈ l2, e.as_buffer_range.isSome = true) :=
    ⟨fun h1 e he => h1 e (h.mem_iff.mpr he), fun h2 e he => h2 e (h.mem_iff.mp he)⟩
  rw [NeedsMultiLevelTiling.total_unused_iter_vars_eq W iter_vars l1 0 (le_refl _)
      (by simp [INT_MAX]),
    NeedsMultiLevelTiling.total_unused_iter_vars_eq W iter_vars l2 0 (le_refl _)
      (by simp [INT_MAX]),
    unusedPairs_perm W iter_vars h]
  simp only [hall]

theorem NeedsMultiLevelTiling.congr_reads (iter_values : List Expr) (sche_block : ScheduleBlock)
    (reads : List Expr) (hemp : reads = [] ↔ sche_block.read_buffers = [])
    (htot : ∀ W, NeedsMultiLevelTiling.total_unused_iter_vars W sche_block.iter_vars reads 0 =
      NeedsMultiLevelTiling.total_unused_iter_vars W sche_block.iter_vars
        sche_block.read_buffers 0) :
    NeedsMultiLevelTiling
        ⟨iter_values, Expr.ScheduleBlock { sche_block with read_buffers := reads }⟩ =
      NeedsMultiLevelTiling ⟨iter_values, Expr.ScheduleBlock sche_block⟩ := by
  cases hwb : sche_block.write_buffers with
  | nil => simp [NeedsMultiLevelTiling, Expr.as_schedule_block, hwb]
  | cons w ws =>
    cases ws with
    | cons w2 ws2 => simp [NeedsMultiLevelTiling, Expr.as_schedule_block, hwb]
    | nil =>
      by_cases hr : sche_block.read_buffers = []
      · simp [NeedsMultiLevelTiling, Expr.as_schedule_block, hwb, hr, hemp.mpr hr]
      · obtain ⟨a, l, hrb⟩ := List.exists_cons_of_ne_nil hr
        obtain ⟨a2, l2, hrb2⟩ := List.exists_cons_of_ne_nil (fun h => hr (hemp.mp h))
        cases hw : w.as_buffer_range with
        | none =>
          simp [NeedsMultiLevelTiling, Expr.as_schedule_block, hwb, hrb, hrb2, hw]
        | some p =>
          obtain ⟨W, wranges⟩ := p
          have h1 := htot W
          rw [hrb, hrb2] at h1
          simp [NeedsMultiLevelTiling, Expr.as_schedule_block, hwb, hrb, hrb2, hw, h1]

/-- C17 fails as stated: `nearOverflowBlock`, with 65535 reads and 32768
unused iteration variables each, gets the verdict true; extended with one
further read `_BufferRange_` the block has 2^31 pairs, the `int` counter
overflows and the call has undefined behaviour instead of the verdict true. -/
theorem NeedsMultiLevelTiling_monotone_int_overflow_counterexample :
    NeedsMultiLevelTiling ⟨[], Expr.ScheduleBlock examples.nearOverflowBlock⟩ =
      Outcome.value true ∧
    (∀ e ∈ [examples.scalarRead], ∃ b rs, e = Expr._BufferRange_ b rs) ∧
    NeedsMultiLevelTiling ⟨[], Expr.ScheduleBlock
        { examples.nearOverflowBlock with
          read_buffers := examples.nearOverflowBlock.read_buffers ++ [examples.scalarRead] }⟩ ≠
      Outcome.value true := by
  refine ⟨?_, ?_, ?_⟩
  · unfold examples.nearOverflowBlock
    rw [NeedsMultiLevelTiling.pairsBlock_eq [] 65535 32768 (by norm_num), if_pos]
    · norm_num
    · simp only [INT_MAX]
      norm_num
  · intro e he
    refine ⟨⟨1⟩, [], ?_⟩
    simpa [examples.scalarRead] using he
  · have hblk : ({ examples.nearOverflowBlock with
          read_buffers := examples.nearOverflowBlock.read_buffers ++ [examples.scalarRead] } :
          ScheduleBlock) = examples.overflowBlock := by
      simp only [examples.nearOverflowBlock, examples.overflowBlock, examples.pairsBlock]
      rw [← List.replicate_succ']
    rw [hblk, NeedsMultiLevelTiling.overflowBlock_undefined]
    exact fun h => Outcome.noConfusion h

/-- C17 as amended: the verdict of `NeedsMultiLevelTiling` is monotone in the
read list as long as the `int` counter holds the count, and it does not depend
on the order of the read list.  When the call returns true on a block, it
returns true on the block whose read list is extended with further
`_BufferRange_`s, everything else being equal, provided the extended block has
at most 2^31 - 1 pairs of a read entry and an iteration variable; and the
outcome is the same on a block and on the block with its read list
permuted. -/
theorem NeedsMultiLevelTiling_monotone_and_order_independent :
    (∀ (iter_values : List Expr) (sche_block : ScheduleBlock) (further : List Expr),
      (∀ e ∈ further, ∃ b rs, e = Expr._BufferRange_ b rs) →
      (sche_block.read_buffers ++ further).length * sche_block.iter_vars.length ≤
        2147483647 →
      NeedsMultiLevelTiling ⟨iter_values, Expr.ScheduleBlock sche_block⟩ = Outcome.value true →
      NeedsMultiLevelTiling ⟨iter_values, Expr.ScheduleBlock
          { sche_block with read_buffers := sche_block.read_buffers ++ further }⟩ =
        Outcome.value true) ∧
    (∀ (iter_values : List Expr) (sche_block : ScheduleBlock) (reads : List Expr),
      reads.Perm sche_block.read_buffers →
      NeedsMultiLevelTiling ⟨iter_values, Expr.ScheduleBlock
          { sche_block with read_buffers := reads }⟩ =
        NeedsMultiLevelTiling ⟨iter_values, Expr.ScheduleBlock sche_block⟩) := by
  constructor
  · intro iter_values sche_block further hfurther hsize htrue
    cases hwb : sche_block.write_buffers with
    | nil => simp [NeedsMultiLevelTiling, Expr.as_schedule_block, hwb] at htrue
    | cons w ws =>
      cases ws with
      | cons w2 ws2 => simp [NeedsMultiLevelTiling, Expr.as_schedule_block, hwb] at htrue
      | nil =>
        cases hw : w.as_buffer_range with
        | none =>
          cases hrb : sche_block.read_buffers <;>
            simp [NeedsMultiLevelTiling, Expr.as_schedule_block, hwb, hrb, hw] at htrue
        | some p =>
          obtain ⟨W, wranges⟩ := p
          have hwBR : w = Expr._BufferRange_ W wranges :=
            (Expr.as_buffer_range_eq_some w W wranges).mp hw
          subst hwBR
          rw [← hwb]
          rw [NeedsMultiLevelTiling.of_single_write_any_reads iter_values sche_block W wranges
            hwb, NeedsMultiLevelTiling.total_unused_iter_vars_eq W _ _ 0 (le_refl _)
              (by simp [INT_MAX])] at htrue
          have h2 := NeedsMultiLevelTiling.of_single_write_any_reads iter_values
            { sche_block with read_buffers := sche_block.read_buffers ++ further } W wranges hwb
          rw [h2]
          by_cases hcond : (∀ e ∈ sche_block.read_buffers, e.as_buffer_range.isSome = true) ∧
              0 + (unusedPairs W sche_block.iter_vars sche_block.read_buffers : Int) ≤ INT_MAX
          · rw [if_pos hcond] at htrue
            simp only [Outcome.bind, Outcome.value.injEq, decide_eq_true_eq, zero_add] at htrue
            have hall : ∀ e ∈ sche_block.read_buffers ++ further,
                ∃ b rs, e = Expr._BufferRange_ b rs := by
              intro e he
              rcases List.mem_append.mp he with h | h
              · have hs := hcond.1 e h
                cases hb : e.as_buffer_range with
                | none => rw [hb] at hs; exact absurd hs (by decide)
                | some q =>
                  exact ⟨q.1, q.2, (Expr.as_buffer_range_eq_some e q.1 q.2).mp hb⟩
              · exact hfurther e h
            show (NeedsMultiLevelTiling.total_unused_iter_vars W sche_block.iter_vars
              (sche_block.read_buffers ++ further) 0).bind _ = _
            rw [NeedsMultiLevelTiling.total_unused_iter_vars_of_bound W _ _ hall hsize,
              unusedPairs_append]
            simp only [Outcome.bind, Outcome.value.injEq, decide_eq_true_eq, Nat.cast_add]
            omega
          · rw [if_neg hcond] at htrue
            simp [Outcome.bind] at htrue
  · intro iter_values sche_block reads hperm
    refine NeedsMultiLevelTiling.congr_reads iter_values sche_block reads ?_ ?_
    · constructor
      · intro h
        rw [h] at hperm
        exact hperm.symm.eq_nil
      · intro h
        rw [h] at hperm
        exact hperm.eq_nil
    · intro W
      exact NeedsMultiLevelTiling.total_unused_iter_vars_perm W sche_block.iter_vars hperm

/-- Witness of the amended C17: the matmul block needs tiling; so does the
block with the further read `X[i]`, and so does the block with its two reads
swapped. -/
theorem NeedsMultiLevelTiling_monotone_and_order_independent_witness :
    NeedsMultiLevelTiling ⟨[], Expr.ScheduleBlock
        { examples.matmulBlock with
          read_buffers := examples.matmulBlock.read_buffers ++
            [Expr._BufferRange_ ⟨5⟩ [examples.i]] }⟩ = Outcome.value true ∧
    NeedsMultiLevelTiling ⟨[], Expr.ScheduleBlock examples.matmulSwappedReads⟩ =
      NeedsMultiLevelTiling ⟨[], Expr.ScheduleBlock examples.matmulBlock⟩ :=
  ⟨NeedsMultiLevelTiling_monotone_and_order_independent.1 [] examples.matmulBlock
      [Expr._BufferRange_ ⟨5⟩ [examples.i]] (by simp) (by decide) rfl,
    NeedsMultiLevelTiling_monotone_and_order_independent.2 [] examples.matmulBlock
      [Expr._BufferRange_ ⟨2⟩ [examples.k, examples.j],
        Expr._BufferRange_ ⟨1⟩ [examples.i, examples.k]]
      (List.Perm.swap _ _ _)⟩

end auto_schedule

end cinn

namespace phi

namespace sparse

/-- C13: whatever the device context, the tensors, `alpha`, `beta` and the
output objects are, both CPU backward kernels of `sparse.addmm` throw an
`Unimplemented` error with the message "Not support CPU backward kernel of
'sparse.addmm' now."; they do not return normally and leave the output objects
as they were. -/
theorem AddmmGradKernels_unimplemented {Context DenseTensor SparseCooTensor SparseCsrTensor
    Scalar : Type} (dev_ctx : Context) (input y dout : DenseTensor) (x_coo : SparseCooTensor)
    (x_csr : SparseCsrTensor) (alpha beta : Scalar)
    (coo_outputs : AddmmGradOutputs DenseTensor SparseCooTensor)
    (csr_outputs : AddmmGradOutputs DenseTensor SparseCsrTensor) :
    AddmmCooDenseGradKernel dev_ctx input x_coo y dout alpha beta coo_outputs =
      (Outcome.thrown ⟨common.ErrorCode.UNIMPLEMENTED,
        "Not support CPU backward kernel of 'sparse.addmm' now."⟩, coo_outputs) ∧
    AddmmCsrDenseGradKernel dev_ctx input x_csr y dout alpha beta csr_outputs =
      (Outcome.thrown ⟨common.ErrorCode.UNIMPLEMENTED,
        "Not support CPU backward kernel of 'sparse.addmm' now."⟩, csr_outputs) ∧
    (∀ u : Unit,
      (AddmmCooDenseGradKernel dev_ctx input x_coo y dout alpha beta coo_outputs).1 ≠
        Outcome.value u ∧
      (AddmmCsrDenseGradKernel dev_ctx input x_csr y dout alpha beta csr_outputs).1 ≠
        Outcome.value u) := by
  refine ⟨rfl, rfl, fun u => ⟨?_, ?_⟩⟩ <;>
    simp [AddmmCooDenseGradKernel, AddmmCsrDenseGradKernel]

end sparse

end phi
